import Mathlib

/-!
# The `pause` command of the player command-line client

A shallow embedding of `cli/pauseCmd.go`: the `Run` function of `pauseCmd`
together with the goroutine it starts.  The main goroutine and the listener
goroutine are modelled as two program counters over one shared state; a
schedule decides which of them (or which external event: the quit signal, the
timer) moves next.  Everything the program does that can be observed from
outside (calls on the socket client, lines printed, the close of `exitC`) is
appended to a trace.

`encoding/json` and the socket client are not part of the command: what they
return is an input of the run (`World`).  The `event` package is not among
the sources either; its types are modelled from the specification, and so is
the event codec, whose round trip is proved at the end.
-/

namespace Player

/-! ## Data model -/

/-- A Go byte slice.  Frames and payloads are never inspected by the command
itself, only handed to `encoding/json`, so they are kept as strings. -/
abbrev Bytes := String

/-- Modelled from the spec: the `event` package (the declaration of
`event.Type` and of its constants) is not among the sources.  The type tag is
a string or enum; the recognised values are a command request type, its
acknowledgement type and a generic error type. -/
abbrev EventType := String

/-- Modelled from the spec: the constant `event.PauseEvent`, the command
request type. -/
def PauseEvent : EventType := "pause"

/-- Modelled from the spec: the constant `event.PausedEvent`, the success
acknowledgement type. -/
def PausedEvent : EventType := "paused"

/-- Modelled from the spec: the constant `event.ErrorEvent`, the generic error
type. -/
def ErrorEvent : EventType := "error"

/-- Modelled from the spec: the value of `created`, an ISO-8601 UTC timestamp,
kept as its calendar fields. -/
structure Timestamp where
  year : Nat
  month : Nat
  day : Nat
  hour : Nat
  minute : Nat
  second : Nat
  nano : Nat
deriving DecidableEq, Repr

/-- Modelled from the spec: the struct `event.Event` (type tag, creation
timestamp, opaque payload); its declaration is not among the sources.  The
Go field `Type` is written `Type_`. -/
structure Event where
  Type_ : EventType
  Created : Timestamp
  Payload : Bytes
deriving DecidableEq, Repr

/-- The Go zero value of a timestamp: January 1 of year 1, 00:00:00 UTC. -/
def Timestamp.zero : Timestamp := ⟨1, 1, 1, 0, 0, 0, 0⟩

/-- The value of `&event.Event{}`: every field is the zero value. -/
def Event.zero : Event := ⟨"", Timestamp.zero, ""⟩

/-- Modelled from the spec: the struct `event.ErrorPayload`, the payload of an
error-typed event carrying a human-readable description. -/
structure ErrorPayload where
  Error : String
deriving DecidableEq, Repr

/-- The value of `&event.ErrorPayload{}`. -/
def ErrorPayload.zero : ErrorPayload := ⟨""⟩

/-! ## Durations (`time.Duration`) -/

/-- A `time.Duration`: a number of nanoseconds. -/
abbrev Duration := Int

/-- The constant `time.Second`. -/
def Second : Duration := 1000000000

/-- The loop of `fmtFrac` in Go's `time` package: of the `prec` low decimal
digits of `v`, those from the first non-zero one upwards are put in front of
`acc`; returns the text, the rest of `v`, and whether a digit was printed. -/
def fmtFracLoop : Nat → Nat → List Char → Bool → List Char × Nat × Bool
  | 0, v, acc, pr => (acc, v, pr)
  | prec + 1, v, acc, pr =>
    let digit := v % 10
    let pr1 := pr || digit != 0
    fmtFracLoop prec (v / 10) (if pr1 then Char.ofNat (digit + 48) :: acc else acc) pr1

/-- The function `fmtFrac` of Go's `time` package: formats the fraction of
`v / 10^prec`, omitting trailing zeros and, when nothing is left, the point. -/
def fmtFrac (acc : List Char) (v : Nat) (prec : Nat) : List Char × Nat :=
  match fmtFracLoop prec v acc false with
  | (acc1, v1, pr) => (if pr then '.' :: acc1 else acc1, v1)

/-- The function `fmtInt` of Go's `time` package: the decimal digits of `v`
put in front of `acc`. -/
def fmtInt (acc : List Char) (v : Nat) : List Char :=
  (Nat.repr v).data ++ acc

/-- The method `Duration.String` of Go's `time` package, as `fmt.Println`
calls it on a `time.Duration` operand. -/
def Duration.String (d : Duration) : String :=
  let u := d.natAbs
  let body : List Char :=
    if u < 1000000000 then
      if u = 0 then ['0', 's']
      else if u < 1000 then fmtInt ['n', 's'] u
      else if u < 1000000 then
        match fmtFrac ['µ', 's'] u 3 with
        | (acc, v) => fmtInt acc v
      else
        match fmtFrac ['m', 's'] u 6 with
        | (acc, v) => fmtInt acc v
    else
      match fmtFrac ['s'] u 9 with
      | (acc, v) =>
        let acc1 := fmtInt acc (v % 60)
        let m := v / 60
        if m > 0 then
          let acc2 := fmtInt ('m' :: acc1) (m % 60)
          let h := m / 60
          if h > 0 then fmtInt ('h' :: acc2) h else acc2
        else acc1
  String.mk (if d < 0 then '-' :: body else body)

/-- The local `deadline := time.Second * 30` of `Run`. -/
def deadline : Duration := Second * 30

/-! ## What the command prints -/

/-- The lines `Run` and its goroutine print with `fmt.Println`, one
constructor per call site. -/
inductive Msg where
  | unableToConnect (err : String)
  | unableToCreate (err : String)
  | pausingPlayer
  | unableToSend (err : String)
  | errorReadingEvent (err : String)
  | playbackPaused
  | unableToProcessError
  | errorPausingPlayer (description : String)
  | noResponse (d : Duration)
  | done
deriving DecidableEq, Repr

/-- The text of a printed line (without the final newline): `fmt.Println`
separates its operands with one space. -/
def Msg.render : Msg → String
  | .unableToConnect err => "Unable to connect to player: " ++ err
  | .unableToCreate err => "Unable to create pause event: " ++ err
  | .pausingPlayer => "Pausing Player..."
  | .unableToSend err => "Unable to send pause event: " ++ err
  | .errorReadingEvent err => "error reading event: " ++ err
  | .playbackPaused => "Playback paused"
  | .unableToProcessError => "Unable to process error"
  | .errorPausingPlayer d => "Error pausing player: " ++ d
  | .noResponse d => "no response from player after " ++ Duration.String d
  | .done => "Done"

/-- The externally observable actions of one run, in the order they happen. -/
inductive Action where
  | Connect
  | Write (b : Bytes)
  | Read
  | Close
  | Println (m : Msg)
  | closeExitC
deriving DecidableEq, Repr

/-! ## The environment of one run -/

/-- What one call of `client.Read` returns: a complete frame, or an error
(end of file included). -/
inductive ReadResult where
  | frame (b : Bytes)
  | error (err : String)
deriving DecidableEq, Repr

/-- Everything `Run` obtains from outside the command: the results of the
calls on the socket client, the clock, and `encoding/json`.  An error is kept
as its text; `none` stands for Go's `nil` error.

`Unmarshal` and `UnmarshalPayload` stand for `json.Unmarshal` on an
`*event.Event` and on an `*event.ErrorPayload`: they take the value the
pointer refers to and give back that value as the call leaves it, with the
error.  Go documents that a call which returns an error may already have
stored some fields, so no relation is assumed between the two components.

`reads` is what the successive calls of `client.Read` return; when the list is
used up the next call blocks. -/
structure World where
  Connect : Option String
  Now : Timestamp
  Marshal : Event → Except String Bytes
  Write : Bytes → Option String
  Unmarshal : Bytes → Event → Event × Option String
  UnmarshalPayload : Bytes → ErrorPayload → ErrorPayload × Option String
  reads : List ReadResult

/-! ## The listener goroutine -/

/-- One turn of the `for` loop of the goroutine, given what `client.Read`
returned: the lines printed in this turn, and whether the goroutine returns
(`true`) or starts the next turn (`false`). -/
def listenerTurn (w : World) : ReadResult → List Msg × Bool
  | .error _ => ([], true)
  | .frame b =>
    match w.Unmarshal b Event.zero with
    | (e, err) =>
      let p1 : List Msg :=
        match err with
        | some x => [.errorReadingEvent x]
        | none => []
      if e.Type_ = PausedEvent then (p1 ++ [.playbackPaused], true)
      else if e.Type_ = ErrorEvent then
        match w.UnmarshalPayload e.Payload ErrorPayload.zero with
        | (payload, perr) =>
          let p2 : List Msg :=
            match perr with
            | some _ => [.unableToProcessError]
            | none => []
          (p1 ++ p2 ++ [.errorPausingPlayer payload.Error], true)
      else (p1, false)

/-- The goroutine run on its own against the results of its reads: the
actions it performs, the read results it did not consume, and whether it
returned (and so ran its deferred `close(exitC)`).  With no result left the
pending `client.Read` blocks and the goroutine has not returned. -/
def listen (w : World) : List ReadResult → List Action × List ReadResult × Bool
  | [] => ([], [], false)
  | r :: rest =>
    match listenerTurn w r with
    | (msgs, true) => (Action.Read :: msgs.map Action.Println ++ [Action.closeExitC], rest, true)
    | (msgs, false) =>
      match listen w rest with
      | (acts, left, fin) => (Action.Read :: msgs.map Action.Println ++ acts, left, fin)

/-! ## The two goroutines together -/

/-- Where the main goroutine is in `Run`: before its first statement, blocked
in the `select`, returning with `client.Close()` and `fmt.Println("Done")`
still deferred, returning with only `fmt.Println("Done")` deferred, or
returned. -/
inductive MainPc where
  | start
  | selecting
  | deferClose
  | deferDone
  | returned
deriving DecidableEq, Repr

/-- Where the listener goroutine is: not started, in its loop (about to call
`client.Read`), returning with `close(exitC)` deferred, or returned. -/
inductive ListenerPc where
  | notStarted
  | reading
  | deferClose
  | returned
deriving DecidableEq, Repr

/-- The three cases of the `select`. -/
inductive Branch where
  | exitC
  | quit
  | timeout
deriving DecidableEq, Repr

/-- The state of one run. `pending` are the read results not yet consumed,
`exitC` tells whether the channel is closed, `quit` whether the channel of
`run.UntilQuit()` is ready, `timer` whether the channel of `time.After` is
ready, `branch` which case of the `select` was taken. -/
structure State where
  main : MainPc
  listener : ListenerPc
  pending : List ReadResult
  exitC : Bool
  quit : Bool
  timer : Bool
  branch : Option Branch
  trace : List Action
deriving DecidableEq, Repr

/-- The state before `Run` is called. -/
def State.init (w : World) : State :=
  ⟨.start, .notStarted, w.reads, false, false, false, none, []⟩

/-- The pause event `Run` builds: type `PauseEvent`, the current time, no
payload. -/
def pauseEvent (w : World) : Event := ⟨PauseEvent, w.Now, ""⟩

/-- The statements of `Run` from its first one up to the `select`: the actions
performed, where the main goroutine is afterwards, and whether the listener
was started. -/
def Run.start (w : World) : List Action × MainPc × ListenerPc :=
  match w.Connect with
  | some err => ([.Connect, .Println (.unableToConnect err)], .deferDone, .notStarted)
  | none =>
    match w.Marshal (pauseEvent w) with
    | .error err => ([.Connect, .Println (.unableToCreate err)], .deferClose, .notStarted)
    | .ok eb =>
      match w.Write eb with
      | some err =>
        ([.Connect, .Println .pausingPlayer, .Write eb, .Println (.unableToSend err)],
          .deferClose, .notStarted)
      | none => ([.Connect, .Println .pausingPlayer, .Write eb], .selecting, .reading)

/-- Whether a case of the `select` can proceed. -/
def State.ready (s : State) : Branch → Bool
  | .exitC => s.exitC
  | .quit => s.quit
  | .timeout => s.timer

/-- What can happen next: the main goroutine moves, the main goroutine leaves
the `select` by a case, the listener goroutine moves, the quit signal is
given, the timer of `time.After(deadline)` fires. -/
inductive Sched where
  | main
  | select (b : Branch)
  | listener
  | quit
  | timer
deriving DecidableEq, Repr

/-- One step of the run; `none` when the chosen step cannot be taken (the
goroutine is blocked or has returned, the `select` case is not ready, the
timer is not armed).

The main goroutine runs from its first statement to the `select` in one step:
until then no other goroutine exists.  It leaves the `select` by any case that
is ready (Go chooses among the ready ones), then runs its deferred calls, last
registered first.  The listener does one turn of its loop per step, and its
deferred `close(exitC)` in a step of its own.  The timer of
`time.After(deadline)` is armed when the `select` is entered. -/
def step (w : World) (c : Sched) (s : State) : Option State :=
  match c with
  | .main =>
    match s.main with
    | .start =>
      match Run.start w with
      | (acts, pc, l) => some { s with main := pc, listener := l, trace := s.trace ++ acts }
    | .selecting => none
    | .deferClose => some { s with main := .deferDone, trace := s.trace ++ [.Close] }
    | .deferDone => some { s with main := .returned, trace := s.trace ++ [.Println .done] }
    | .returned => none
  | .select b =>
    if s.main = .selecting ∧ s.ready b = true then
      some { s with
        main := .deferClose
        branch := some b
        trace := s.trace ++ (if b = .timeout then [.Println (.noResponse deadline)] else []) }
    else none
  | .listener =>
    match s.listener with
    | .reading =>
      match s.pending with
      | [] => none
      | r :: rest =>
        match listenerTurn w r with
        | (msgs, ret) =>
          some { s with
            pending := rest
            listener := if ret then .deferClose else .reading
            trace := s.trace ++ Action.Read :: msgs.map Action.Println }
    | .deferClose =>
      some { s with listener := .returned, exitC := true, trace := s.trace ++ [.closeExitC] }
    | .notStarted => none
    | .returned => none
  | .quit => some { s with quit := true }
  | .timer => if s.main = .selecting then some { s with timer := true } else none

/-- Runs a schedule from a state; a step that cannot be taken is skipped. -/
def exec (w : World) : List Sched → State → State
  | [], s => s
  | c :: cs, s => exec w cs ((step w c s).getD s)

/-- Runs a schedule from the initial state. -/
def run (w : World) (sched : List Sched) : State :=
  exec w sched (State.init w)

/-! ## Reading a trace -/

/-- Whether a line is printed by the main goroutine (`true`) or by the
listener goroutine (`false`). -/
def Msg.ofMain : Msg → Bool
  | .unableToConnect _ => true
  | .unableToCreate _ => true
  | .pausingPlayer => true
  | .unableToSend _ => true
  | .noResponse _ => true
  | .done => true
  | .errorReadingEvent _ => false
  | .playbackPaused => false
  | .unableToProcessError => false
  | .errorPausingPlayer _ => false

/-- Whether an action is performed by the main goroutine (`true`) or by the
listener goroutine (`false`). -/
def Action.ofMain : Action → Bool
  | .Connect => true
  | .Write _ => true
  | .Close => true
  | .Println m => m.ofMain
  | .Read => false
  | .closeExitC => false

/-- Whether an action is a call of `client.Write`. -/
def Action.isWrite : Action → Bool
  | .Write _ => true
  | _ => false

/-- The outcomes of the specification: these are not values of the program,
which only prints; they name what a run reports. -/
inductive Outcome where
  | Acknowledged
  | RemoteError (description : String)
  | Timeout
  | CancelledByQuit
  | TransportFailure (description : String)
deriving DecidableEq, Repr

/-- The outcome a printed line reports, if it reports one.  A failure to
build the pause event is counted with the transport failures. -/
def Msg.outcome : Msg → Option Outcome
  | .unableToConnect err => some (.TransportFailure err)
  | .unableToCreate err => some (.TransportFailure err)
  | .unableToSend err => some (.TransportFailure err)
  | .playbackPaused => some .Acknowledged
  | .errorPausingPlayer d => some (.RemoteError d)
  | .noResponse _ => some .Timeout
  | .pausingPlayer => none
  | .errorReadingEvent _ => none
  | .unableToProcessError => none
  | .done => none

/-- The outcome an action reports, if it reports one. -/
def Action.outcome : Action → Option Outcome
  | .Println m => m.outcome
  | _ => none

/-- The outcomes the listener goroutine reported, in order. -/
def listenerOutcomes (t : List Action) : List Outcome :=
  (t.filter (fun a => !a.ofMain)).filterMap Action.outcome

/-- The outcomes the main goroutine reported, in order, closed by
`CancelledByQuit` when it left the `select` by the quit case (which prints
nothing). -/
def mainOutcomes (s : State) : List Outcome :=
  (s.trace.filter Action.ofMain).filterMap Action.outcome ++
    (if s.branch = some .quit then [Outcome.CancelledByQuit] else [])

/-- All outcomes of a run: those of the main goroutine, then those of the
listener. -/
def outcomes (s : State) : List Outcome :=
  mainOutcomes s ++ listenerOutcomes s.trace

/-- What the main goroutine does after the statements of `Run.start`, given
where it is and which `select` case it took: the timeout line, the deferred
`client.Close()` (deferred only once `Connect` succeeded) and the deferred
`fmt.Println("Done")`. -/
def mainSuffix (w : World) (pc : MainPc) (br : Option Branch) : List Action :=
  (if br = some .timeout then [Action.Println (.noResponse deadline)] else []) ++
    (match pc with
      | .deferDone => if w.Connect = none then [Action.Close] else []
      | .returned => (if w.Connect = none then [Action.Close] else []) ++ [.Println .done]
      | _ => [])

/-- Whether a frame decodes to an event of a terminal type, `PausedEvent` or
`ErrorEvent`. -/
def terminalFrame (w : World) (b : Bytes) : Bool :=
  (w.Unmarshal b Event.zero).1.Type_ = PausedEvent ||
    (w.Unmarshal b Event.zero).1.Type_ = ErrorEvent

/-- The outcome a frame of a terminal type stands for: `Acknowledged` for a
paused event, `RemoteError` with the decoded description for an error event. -/
def terminalOutcome (w : World) (b : Bytes) : Outcome :=
  if (w.Unmarshal b Event.zero).1.Type_ = PausedEvent then .Acknowledged
  else .RemoteError
    (w.UnmarshalPayload (w.Unmarshal b Event.zero).1.Payload ErrorPayload.zero).1.Error

/-! ## Invariants of a run -/

/-- What holds of the main goroutine in every state a run reaches. -/
structure Inv (w : World) (s : State) : Prop where
  atStart : s.main = .start → s.trace = [] ∧ s.listener = .notStarted ∧ s.branch = none
  later : s.main ≠ .start → ∃ tail, s.trace = (Run.start w).1 ++ tail ∧
      tail.filter Action.ofMain = mainSuffix w s.main s.branch ∧
      (s.listener = .notStarted → tail.filter Action.ofMain = tail)
  selecting : s.main = .selecting → (Run.start w).2.1 = .selecting ∧ s.branch = none
  branch : s.branch ≠ none → (Run.start w).2.1 = .selecting ∧ s.main ≠ .selecting
  resolved : (Run.start w).2.1 = .selecting → s.main ≠ .start → s.main ≠ .selecting →
      s.branch ≠ none
  deferClose : s.main = .deferClose → w.Connect = none
  lis : s.listener ≠ .notStarted → (Run.start w).2.2 = .reading

/-- What holds of the listener goroutine in every state a run reaches. -/
structure InvL (s : State) : Prop where
  exitC : s.exitC = true ↔ s.listener = .returned
  quiet : s.listener = .notStarted ∨ s.listener = .reading → listenerOutcomes s.trace = []
  one : (listenerOutcomes s.trace).length ≤ 1
  closes : s.trace.count Action.closeExitC = if s.listener = .returned then 1 else 0

/-- What holds in every state of a run in which no frame ever arrives and the
quit signal is never given. -/
structure Silent (s : State) : Prop where
  pending : s.pending = []
  quit : s.quit = false
  exitC : s.exitC = false
  lis : s.listener = .notStarted ∨ s.listener = .reading
  mainOnly : s.trace.filter Action.ofMain = s.trace
  branch : s.branch = none ∨ s.branch = some .timeout

/-- The trace of a run that ends by the timeout. -/
def timeoutTrace (eb : Bytes) : List Action :=
  [.Connect, .Println .pausingPlayer, .Write eb, .Println (.noResponse deadline), .Close,
    .Println .done]

/-! ## Concrete environments -/

/-- A stand-in for `json.Unmarshal` given by a table: a frame of the table
yields the listed value and error, any other frame leaves the target as it is
and yields a syntax error. -/
def tableUnmarshal {α : Type} (table : List (Bytes × α × Option String)) (b : Bytes)
    (target : α) : α × Option String :=
  match table.lookup b with
  | some r => r
  | none => (target, some "invalid character 'x' looking for beginning of value")

/-- The frame the command sends. -/
def pauseFrame : Bytes := "\x7b\"type\":\"pause\",\"created\":\"2016-05-01T12:00:00Z\"\x7d"

/-- A well-formed acknowledgement frame. -/
def pausedFrame : Bytes := "\x7b\"type\":\"paused\",\"created\":\"2016-05-01T12:00:01Z\"\x7d"

/-- A well-formed error frame whose payload is `{"error":"disk full"}`. -/
def diskFullFrame : Bytes :=
  "\x7b\"type\":\"error\",\"created\":\"2016-05-01T12:00:01Z\"," ++
    "\"payload\":\x7b\"error\":\"disk full\"\x7d\x7d"

/-- The payload `{"error":"disk full"}`. -/
def diskFullPayload : Bytes := "\x7b\"error\":\"disk full\"\x7d"

/-- A frame of an event type the command does not know. -/
def playingFrame : Bytes := "\x7b\"type\":\"playing\",\"created\":\"2016-05-01T12:00:01Z\"\x7d"

/-- An error frame whose payload is the JSON string `"oops"`, not an object. -/
def oddErrorFrame : Bytes :=
  "\x7b\"type\":\"error\",\"created\":\"2016-05-01T12:00:01Z\",\"payload\":\"oops\"\x7d"

/-- An error frame whose payload has the member `error` twice, the second
time with a number: `json.Unmarshal` stores the first value, meets the number,
goes on, and returns an `UnmarshalTypeError`. -/
def twiceErrorFrame : Bytes :=
  "\x7b\"type\":\"error\",\"created\":\"2016-05-01T12:00:01Z\"," ++
    "\"payload\":\x7b\"error\":\"disk full\",\"error\":5\x7d\x7d"

/-- The payload of `twiceErrorFrame`. -/
def twiceErrorPayload : Bytes := "\x7b\"error\":\"disk full\",\"error\":5\x7d"

/-- A frame whose `created` member is not a timestamp and stands after the
type tag `paused`: `json.Unmarshal` stores the tag, then fails on the
timestamp and returns the error. -/
def halfPausedFrame : Bytes := "\x7b\"type\":\"paused\",\"created\":\"yesterday\"\x7d"

/-- As `halfPausedFrame`, with the type tag `error`. -/
def halfErrorFrame : Bytes := "\x7b\"type\":\"error\",\"created\":\"yesterday\"\x7d"

/-- The timestamp `2016-05-01T12:00:01Z`. -/
def demoTime : Timestamp := ⟨2016, 5, 1, 12, 0, 1, 0⟩

/-- An error of the kind `time.Time.UnmarshalJSON` returns on `"yesterday"`;
its wording plays no part. -/
def timeError : String :=
  "parsing time \"yesterday\" as \"2006-01-02T15:04:05Z07:00\": cannot parse \"yesterday\" as \"2006\""

/-- What `json.Unmarshal` into a zero `event.Event` gives on the frames
above. -/
def demoEvents : List (Bytes × Event × Option String) :=
  [(pausedFrame, ⟨PausedEvent, demoTime, ""⟩, none),
   (diskFullFrame, ⟨ErrorEvent, demoTime, diskFullPayload⟩, none),
   (playingFrame, ⟨"playing", demoTime, ""⟩, none),
   (oddErrorFrame, ⟨ErrorEvent, demoTime, "\"oops\""⟩, none),
   (twiceErrorFrame, ⟨ErrorEvent, demoTime, twiceErrorPayload⟩, none),
   (halfPausedFrame, ⟨PausedEvent, Timestamp.zero, ""⟩, some timeError),
   (halfErrorFrame, ⟨ErrorEvent, Timestamp.zero, ""⟩, some timeError)]

/-- What `json.Unmarshal` into a zero `event.ErrorPayload` gives on the
payloads above. -/
def demoPayloads : List (Bytes × ErrorPayload × Option String) :=
  [(diskFullPayload, ⟨"disk full"⟩, none),
   ("\"oops\"", ⟨""⟩,
     some "json: cannot unmarshal string into Go value of type event.ErrorPayload"),
   (twiceErrorPayload, ⟨"disk full"⟩,
     some "json: cannot unmarshal number into Go struct field ErrorPayload.error of type string"),
   ("", ⟨""⟩, some "unexpected end of JSON input")]

/-- An environment in which `json` behaves as the tables say, with the given
results of `Connect`, of `Write` and of the reads. -/
def demoWorld (connect write : Option String) (reads : List ReadResult) : World where
  Connect := connect
  Now := ⟨2016, 5, 1, 12, 0, 0, 0⟩
  Marshal := fun _ => .ok pauseFrame
  Write := fun _ => write
  Unmarshal := tableUnmarshal demoEvents
  UnmarshalPayload := tableUnmarshal demoPayloads
  reads := reads
/-! ## The event codec -/

/-- Modelled from the spec: which timestamps are valid, the fields of an
ISO-8601 UTC timestamp being a year of four digits, a month, a day, and the
time of day down to the nanosecond. -/
def Timestamp.valid (t : Timestamp) : Prop :=
  t.year < 10000 ∧ 1 ≤ t.month ∧ t.month ≤ 12 ∧ 1 ≤ t.day ∧ t.day ≤ 31 ∧ t.hour < 24 ∧
    t.minute < 60 ∧ t.second < 60 ∧ t.nano < 1000000000

instance (t : Timestamp) : Decidable t.valid := by
  unfold Timestamp.valid
  infer_instance

/-- The decimal digit `d` as a character. -/
def digitChar (d : Nat) : Char := Char.ofNat (48 + d)

/-- Modelled from the spec: a number written with exactly `k` decimal digits,
the most significant first, as in the fields of an ISO-8601 timestamp. -/
def writeFixed : Nat → Nat → List Char
  | 0, _ => []
  | k + 1, n => digitChar (n / 10 ^ k % 10) :: writeFixed k n

/-- Modelled from the spec: reads exactly `k` decimal digits, continuing the
number `acc`; fails when a character is not a digit or the text ends. -/
def readFixed : Nat → Nat → List Char → Option (Nat × List Char)
  | 0, acc, cs => some (acc, cs)
  | _ + 1, _, [] => none
  | k + 1, acc, c :: cs =>
    if 48 ≤ c.toNat ∧ c.toNat ≤ 57 then readFixed k (acc * 10 + (c.toNat - 48)) cs else none

/-- Modelled from the spec: the body of a JSON string, with the quotation mark
and the backslash escaped by a backslash. -/
def escape : List Char → List Char
  | [] => []
  | c :: cs => if c = '"' ∨ c = '\\' then '\\' :: c :: escape cs else c :: escape cs

/-- Modelled from the spec: reads the body of a JSON string up to its closing
quotation mark; gives the string and the text after the mark.  The flag tells
whether the character before was an escaping backslash.  Fails when the text
ends before the mark or a backslash stands before a character that is not
escaped. -/
def readStringFrom : Bool → List Char → Option (List Char × List Char)
  | _, [] => none
  | true, c :: cs =>
    if c = '"' ∨ c = '\\' then (readStringFrom false cs).map fun (s, rest) => (c :: s, rest)
    else none
  | false, c :: cs =>
    if c = '"' then some ([], cs)
    else if c = '\\' then readStringFrom true cs
    else (readStringFrom false cs).map fun (s, rest) => (c :: s, rest)

/-- Modelled from the spec: reads the body of a JSON string from its first
character. -/
def readString (cs : List Char) : Option (List Char × List Char) :=
  readStringFrom false cs

/-- Takes the text `pre` off the front of `cs`; fails when `cs` does not start
with it. -/
def expect : List Char → List Char → Option (List Char)
  | [], cs => some cs
  | _ :: _, [] => none
  | p :: ps, c :: cs => if p = c then expect ps cs else none

/-- Modelled from the spec: the timestamp in its ISO-8601 UTC form
`YYYY-MM-DDTHH:MM:SS.NNNNNNNNNZ`. -/
def writeTimestamp (t : Timestamp) : List Char :=
  writeFixed 4 t.year ++ '-' :: writeFixed 2 t.month ++ '-' :: writeFixed 2 t.day ++
    'T' :: writeFixed 2 t.hour ++ ':' :: writeFixed 2 t.minute ++ ':' ::
    writeFixed 2 t.second ++ '.' :: writeFixed 9 t.nano ++ ['Z']

/-- Modelled from the spec: reads a timestamp in the form of `writeTimestamp`
and checks that it is a valid one. -/
def readTimestamp (cs : List Char) : Option (Timestamp × List Char) :=
  (readFixed 4 0 cs).bind fun (year, c1) =>
  (expect ['-'] c1).bind fun c2 =>
  (readFixed 2 0 c2).bind fun (month, c3) =>
  (expect ['-'] c3).bind fun c4 =>
  (readFixed 2 0 c4).bind fun (day, c5) =>
  (expect ['T'] c5).bind fun c6 =>
  (readFixed 2 0 c6).bind fun (hour, c7) =>
  (expect [':'] c7).bind fun c8 =>
  (readFixed 2 0 c8).bind fun (minute, c9) =>
  (expect [':'] c9).bind fun c10 =>
  (readFixed 2 0 c10).bind fun (second, c11) =>
  (expect ['.'] c11).bind fun c12 =>
  (readFixed 9 0 c12).bind fun (nano, c13) =>
  (expect ['Z'] c13).bind fun c14 =>
  if Timestamp.valid ⟨year, month, day, hour, minute, second, nano⟩ then
    some (⟨year, month, day, hour, minute, second, nano⟩, c14)
  else none

/-- Modelled from the spec: the start of the object up to the body of the
`type` string. -/
def openType : List Char := "\x7b\"type\":\"".data

/-- Modelled from the spec: the start of the member `created` up to the
timestamp. -/
def openCreated : List Char := ",\"created\":\"".data

/-- Modelled from the spec: the start of the member `payload`. -/
def openPayload : List Char := ",\"payload\":".data

/-- Modelled from the spec: the member `payload` and the end of the object.
An empty payload is left out; any other payload is written as it is, being
opaque structured data already. -/
def writePayload (p : List Char) : List Char :=
  if p = [] then ['}'] else openPayload ++ p ++ ['}']

/-- Modelled from the spec: reads what `writePayload` writes, up to the end of
the message. -/
def readPayload (cs : List Char) : Option (List Char) :=
  if cs = ['}'] then some []
  else
    (expect openPayload cs).bind fun rest =>
      if rest.getLast? = some '}' ∧ rest.dropLast ≠ [] then some rest.dropLast else none

/-- Modelled from the spec: `encode(event) -> bytes` of the Event Codec, the
JSON marshalling of an `event.Event` (whose declaration, with its JSON tags,
is not among the sources): an object with the members `type`, a string,
`created`, an ISO-8601 UTC timestamp, and `payload`, the opaque payload, left
out when empty. -/
def encode (e : Event) : Bytes :=
  String.mk (openType ++ escape e.Type_.data ++ '"' :: openCreated ++
    writeTimestamp e.Created ++ '"' :: writePayload e.Payload.data)

/-- Modelled from the spec: `decode(bytes) -> event` of the Event Codec, the
JSON unmarshalling of one already delimited message into an `event.Event`;
an empty or malformed message fails with a decode error. -/
def decode (b : Bytes) : Except String Event :=
  match
    (expect openType b.data).bind fun c1 =>
    (readString c1).bind fun (ty, c2) =>
    (expect openCreated c2).bind fun c3 =>
    (readTimestamp c3).bind fun (created, c4) =>
    (expect ['"'] c4).bind fun c5 =>
    (readPayload c5).bind fun payload =>
    some (⟨String.mk ty, created, String.mk payload⟩ : Event)
  with
  | some e => .ok e
  | none => .error "malformed event"

/-! ## Basic facts about steps -/

theorem step_cases {w : World} {c : Sched} {s s' : State} (h : step w c s = some s') :
    (c = .main ∧ s.main = .start ∧
        s' = { s with main := (Run.start w).2.1, listener := (Run.start w).2.2,
                      trace := s.trace ++ (Run.start w).1 }) ∨
    (c = .main ∧ s.main = .deferClose ∧
        s' = { s with main := .deferDone, trace := s.trace ++ [.Close] }) ∨
    (c = .main ∧ s.main = .deferDone ∧
        s' = { s with main := .returned, trace := s.trace ++ [.Println .done] }) ∨
    (∃ b, c = .select b ∧ s.main = .selecting ∧ s.ready b = true ∧
        s' = { s with main := .deferClose, branch := some b,
                      trace := s.trace ++
                        (if b = .timeout then [.Println (.noResponse deadline)] else []) }) ∨
    (∃ r rest, c = .listener ∧ s.listener = .reading ∧ s.pending = r :: rest ∧
        s' = { s with pending := rest,
                      listener := if (listenerTurn w r).2 then .deferClose else .reading,
                      trace := s.trace ++
                        Action.Read :: (listenerTurn w r).1.map Action.Println }) ∨
    (c = .listener ∧ s.listener = .deferClose ∧
        s' = { s with listener := .returned, exitC := true,
                      trace := s.trace ++ [.closeExitC] }) ∨
    (c = .quit ∧ s' = { s with quit := true }) ∨
    (c = .timer ∧ s.main = .selecting ∧ s' = { s with timer := true }) := by
  cases c with
  | main =>
    cases hm : s.main <;> simp [step, hm] at h
    · left; exact ⟨rfl, rfl, h.symm⟩
    · right; left; exact ⟨rfl, rfl, h.symm⟩
    · right; right; left; exact ⟨rfl, rfl, h.symm⟩
  | select b =>
    simp only [step] at h
    split at h
    · rename_i hc
      right; right; right; left
      exact ⟨b, rfl, hc.1, hc.2, (Option.some.inj h).symm⟩
    · cases h
  | listener =>
    cases hl : s.listener <;> simp [step, hl] at h
    · cases hp : s.pending with
      | nil => simp [hp] at h
      | cons r rest =>
        simp [hp] at h
        right; right; right; right; left
        exact ⟨r, rest, rfl, rfl, rfl, h.symm⟩
    · right; right; right; right; right; left
      exact ⟨rfl, rfl, h.symm⟩
  | quit =>
    simp [step] at h
    right; right; right; right; right; right; left
    exact ⟨rfl, h.symm⟩
  | timer =>
    simp only [step] at h
    split at h
    · rename_i hc
      right; right; right; right; right; right; right
      exact ⟨rfl, hc, (Option.some.inj h).symm⟩
    · cases h

/-- A property that holds at a state and is kept by every step whose
scheduling choice satisfies `Q` holds after any schedule made of such
choices. -/
theorem exec_induction (w : World) (P : State → Prop) (Q : Sched → Prop)
    (hstep : ∀ c s s', Q c → P s → step w c s = some s' → P s') :
    ∀ (sched : List Sched) (s : State), (∀ c ∈ sched, Q c) → P s → P (exec w sched s) := by
  intro sched
  induction sched with
  | nil => intro s _ hs; exact hs
  | cons c cs ih =>
    intro s hq hs
    have hc : Q c := hq c (List.mem_cons_self c cs)
    have hcs : ∀ x ∈ cs, Q x := fun x hx => hq x (List.mem_cons_of_mem c hx)
    show P (exec w cs ((step w c s).getD s))
    cases hst : step w c s with
    | none => exact ih s hcs hs
    | some s' => exact ih s' hcs (hstep c s s' hc hs hst)

/-- A property that holds initially and is kept by every step holds after
every schedule. -/
theorem run_induction (w : World) (P : State → Prop) (h0 : P (State.init w))
    (hstep : ∀ c s s', P s → step w c s = some s' → P s') (sched : List Sched) :
    P (run w sched) :=
  exec_induction w P (fun _ => True) (fun c s s' _ hs h => hstep c s s' hs h) sched
    (State.init w) (fun _ _ => trivial) h0

/-- The four ways through the statements before the `select`. -/
theorem start_cases (w : World) :
    (∃ err, w.Connect = some err ∧
        Run.start w = ([.Connect, .Println (.unableToConnect err)], .deferDone, .notStarted)) ∨
    (∃ err, w.Connect = none ∧ w.Marshal (pauseEvent w) = .error err ∧
        Run.start w = ([.Connect, .Println (.unableToCreate err)], .deferClose, .notStarted)) ∨
    (∃ eb err, w.Connect = none ∧ w.Marshal (pauseEvent w) = .ok eb ∧ w.Write eb = some err ∧
        Run.start w = ([.Connect, .Println .pausingPlayer, .Write eb,
          .Println (.unableToSend err)], .deferClose, .notStarted)) ∨
    (∃ eb, w.Connect = none ∧ w.Marshal (pauseEvent w) = .ok eb ∧ w.Write eb = none ∧
        Run.start w = ([.Connect, .Println .pausingPlayer, .Write eb], .selecting, .reading)) := by
  unfold Run.start
  cases hc : w.Connect with
  | some err => left; exact ⟨err, rfl, rfl⟩
  | none =>
    cases hm : w.Marshal (pauseEvent w) with
    | error err => right; left; exact ⟨err, rfl, rfl, rfl⟩
    | ok eb =>
      cases hw : w.Write eb with
      | some err => right; right; left; exact ⟨eb, err, rfl, rfl, hw, by simp [hw]⟩
      | none => right; right; right; exact ⟨eb, rfl, rfl, hw, by simp [hw]⟩

theorem start_ofMain (w : World) : ∀ a ∈ (Run.start w).1, a.ofMain = true := by
  rcases start_cases w with ⟨err, _, h⟩ | ⟨err, _, _, h⟩ | ⟨eb, err, _, _, _, h⟩ | ⟨eb, _, _, _, h⟩ <;>
    simp [h, Action.ofMain, Msg.ofMain]

theorem start_filter (w : World) : (Run.start w).1.filter Action.ofMain = (Run.start w).1 :=
  List.filter_eq_self.mpr (start_ofMain w)

/-- Every line printed in a turn of the listener is a line of the listener. -/
theorem listenerTurn_ofMain (w : World) (r : ReadResult) :
    ∀ m ∈ (listenerTurn w r).1, m.ofMain = false := by
  cases r with
  | error err => simp [listenerTurn]
  | frame b =>
    rcases hU : w.Unmarshal b Event.zero with ⟨e, err⟩
    rcases hP : w.UnmarshalPayload e.Payload ErrorPayload.zero with ⟨p, perr⟩
    simp only [listenerTurn, hU, hP]
    cases err <;> cases perr <;> split_ifs <;> simp [Msg.ofMain]

theorem listenerTurn_actions_filter (w : World) (r : ReadResult) :
    (Action.Read :: (listenerTurn w r).1.map Action.Println).filter Action.ofMain = [] := by
  rw [List.filter_eq_nil_iff]
  intro a ha
  rcases List.mem_cons.mp ha with rfl | ha
  · simp [Action.ofMain]
  · rcases List.mem_map.mp ha with ⟨m, hm, rfl⟩
    simp [Action.ofMain, listenerTurn_ofMain w r m hm]

/-- A turn that goes on to the next one reports no outcome; a turn that
returns reports at most one. -/
theorem listenerTurn_outcomes (w : World) (r : ReadResult) :
    ((listenerTurn w r).2 = false → (listenerTurn w r).1.filterMap Msg.outcome = []) ∧
    ((listenerTurn w r).1.filterMap Msg.outcome).length ≤ 1 := by
  cases r with
  | error err => simp [listenerTurn]
  | frame b =>
    rcases hU : w.Unmarshal b Event.zero with ⟨e, err⟩
    rcases hP : w.UnmarshalPayload e.Payload ErrorPayload.zero with ⟨p, perr⟩
    simp only [listenerTurn, hU, hP]
    cases err <;> cases perr <;> split_ifs <;> simp [Msg.outcome]

theorem inv_init (w : World) : Inv w (State.init w) := by
  constructor <;> simp [State.init]

/-- The trace invariant is kept when a step appends actions to the trace. -/
theorem later_append {w : World} {t tail acts : List Action} {pc pc' : MainPc}
    {br br' : Option Branch} {l l' : ListenerPc}
    (ht : t = (Run.start w).1 ++ tail)
    (hf : tail.filter Action.ofMain = mainSuffix w pc br)
    (hn : l = .notStarted → tail.filter Action.ofMain = tail)
    (hsuf : mainSuffix w pc' br' = mainSuffix w pc br ++ acts.filter Action.ofMain)
    (hl : l' = .notStarted → l = .notStarted ∧ acts.filter Action.ofMain = acts) :
    ∃ tail', t ++ acts = (Run.start w).1 ++ tail' ∧
      tail'.filter Action.ofMain = mainSuffix w pc' br' ∧
      (l' = .notStarted → tail'.filter Action.ofMain = tail') := by
  refine ⟨tail ++ acts, by rw [ht, List.append_assoc], by rw [List.filter_append, hf, hsuf], ?_⟩
  intro h
  obtain ⟨h1, h2⟩ := hl h
  rw [List.filter_append, hn h1, h2]

theorem inv_step {w : World} {c : Sched} {s s' : State} (hs : Inv w s)
    (h : step w c s = some s') : Inv w s' := by
  rcases step_cases h with ⟨_, hm, rfl⟩ | ⟨_, hm, rfl⟩ | ⟨_, hm, rfl⟩ | ⟨b, _, hm, _, rfl⟩ |
    ⟨r, rest, _, hl, _, rfl⟩ | ⟨_, hl, rfl⟩ | ⟨_, rfl⟩ | ⟨_, hm, rfl⟩
  · obtain ⟨ht, hl, hb⟩ := hs.atStart hm
    rcases start_cases w with ⟨err, hc, h⟩ | ⟨err, hc, _, h⟩ | ⟨eb, err, hc, _, _, h⟩ |
      ⟨eb, hc, _, _, h⟩ <;>
    constructor <;> simp [h, ht, hb, hc, mainSuffix]
  · obtain ⟨tail, ht, hf, hn⟩ := hs.later (by simp [hm])
    have hc := hs.deferClose hm
    refine ⟨by simp, fun _ => ?_, by simp, ?_,
      fun ho _ _ => hs.resolved ho (by simp [hm]) (by simp [hm]), by simp, hs.lis⟩
    · exact later_append ht hf hn (by simp [mainSuffix, hm, hc, Action.ofMain])
        (fun h => ⟨h, by simp [Action.ofMain]⟩)
    · intro hb; exact ⟨(hs.branch hb).1, by simp⟩
  · obtain ⟨tail, ht, hf, hn⟩ := hs.later (by simp [hm])
    refine ⟨by simp, fun _ => ?_, by simp, ?_,
      fun ho _ _ => hs.resolved ho (by simp [hm]) (by simp [hm]), by simp, hs.lis⟩
    · exact later_append ht hf hn (by simp [mainSuffix, hm, Action.ofMain, Msg.ofMain])
        (fun h => ⟨h, by simp [Action.ofMain, Msg.ofMain]⟩)
    · intro hb; exact ⟨(hs.branch hb).1, by simp⟩
  · obtain ⟨tail, ht, hf, hn⟩ := hs.later (by simp [hm])
    obtain ⟨ho, hb⟩ := hs.selecting hm
    have hc : w.Connect = none := by
      rcases start_cases w with ⟨err, hc, h⟩ | ⟨err, hc, _, h⟩ | ⟨eb, err, hc, _, _, h⟩ |
        ⟨eb, hc, _, _, h⟩ <;> simp_all
    refine ⟨by simp, fun _ => ?_, by simp, fun _ => ⟨ho, by simp⟩, by simp, fun _ => hc,
      hs.lis⟩
    refine later_append ht hf hn ?_ (fun h => ⟨h, ?_⟩)
    · cases b <;> simp [mainSuffix, hm, hb, Action.ofMain, Msg.ofMain]
    · cases b <;> simp [Action.ofMain, Msg.ofMain]
  · have hns : s.main ≠ .start := fun hm => by
      have := (hs.atStart hm).2.1
      simp [hl] at this
    obtain ⟨tail, ht, hf, hn⟩ := hs.later hns
    refine ⟨fun hm => absurd hm hns, fun _ => ?_, hs.selecting, hs.branch, hs.resolved,
      hs.deferClose, fun _ => hs.lis (by simp [hl])⟩
    refine later_append ht hf hn (by simp [listenerTurn_actions_filter]) (fun h => ?_)
    exfalso
    revert h
    dsimp only
    split_ifs <;> simp
  · have hns : s.main ≠ .start := fun hm => by
      have := (hs.atStart hm).2.1
      simp [hl] at this
    obtain ⟨tail, ht, hf, hn⟩ := hs.later hns
    refine ⟨fun hm => absurd hm hns, fun _ => ?_, hs.selecting, hs.branch, hs.resolved,
      hs.deferClose, fun _ => hs.lis (by simp [hl])⟩
    exact later_append ht hf hn (by simp [Action.ofMain]) (fun h => by simp at h)
  · exact ⟨hs.atStart, hs.later, hs.selecting, hs.branch, hs.resolved, hs.deferClose, hs.lis⟩
  · exact ⟨hs.atStart, hs.later, hs.selecting, hs.branch, hs.resolved, hs.deferClose, hs.lis⟩

theorem inv_run (w : World) (sched : List Sched) : Inv w (run w sched) :=
  run_induction w (Inv w) (inv_init w) (fun _ _ _ hs h => inv_step hs h) sched

theorem listenerOutcomes_append (t u : List Action) :
    listenerOutcomes (t ++ u) = listenerOutcomes t ++ listenerOutcomes u := by
  simp [listenerOutcomes]

theorem listenerOutcomes_of_main {u : List Action} (h : ∀ a ∈ u, a.ofMain = true) :
    listenerOutcomes u = [] := by
  have : u.filter (fun a => !a.ofMain) = [] := by
    rw [List.filter_eq_nil_iff]
    intro a ha
    simp [h a ha]
  simp [listenerOutcomes, this]

theorem filter_listener_println (l : List Msg) (hl : ∀ m ∈ l, m.ofMain = false) :
    (l.map Action.Println).filter (fun a => !a.ofMain) = l.map Action.Println := by
  rw [List.filter_eq_self]
  intro a ha
  rcases List.mem_map.mp ha with ⟨m, hm, rfl⟩
  simp [Action.ofMain, hl m hm]

theorem filterMap_outcome_println (l : List Msg) :
    (l.map Action.Println).filterMap Action.outcome = l.filterMap Msg.outcome := by
  rw [List.filterMap_map]
  rfl

theorem listenerOutcomes_turn (w : World) (r : ReadResult) :
    listenerOutcomes (Action.Read :: (listenerTurn w r).1.map Action.Println) =
      (listenerTurn w r).1.filterMap Msg.outcome := by
  have h1 : (Action.Read :: (listenerTurn w r).1.map Action.Println).filter
      (fun a => !a.ofMain) = Action.Read :: (listenerTurn w r).1.map Action.Println := by
    rw [List.filter_cons_of_pos (by rfl), filter_listener_println _ (listenerTurn_ofMain w r)]
  rw [listenerOutcomes, h1, List.filterMap_cons_none (by rfl), filterMap_outcome_println]

theorem count_closeExitC_turn (w : World) (r : ReadResult) :
    (Action.Read :: (listenerTurn w r).1.map Action.Println).count Action.closeExitC = 0 := by
  rw [List.count_eq_zero]
  simp

theorem invL_init (w : World) : InvL (State.init w) := by
  constructor <;> simp [State.init, listenerOutcomes]

/-- Actions of the main goroutine leave the listener invariant alone, also
when the main goroutine starts the listener. -/
theorem invL_append_main {s s' : State} {acts : List Action} (hs : InvL s)
    (he : s'.exitC = s.exitC)
    (hl : s'.listener = s.listener ∨ (s.listener = .notStarted ∧ s'.listener = .reading))
    (ht : s'.trace = s.trace ++ acts) (ha : ∀ a ∈ acts, a.ofMain = true) : InvL s' := by
  have ho : listenerOutcomes s'.trace = listenerOutcomes s.trace := by
    rw [ht, listenerOutcomes_append, listenerOutcomes_of_main ha, List.append_nil]
  have hc : s'.trace.count Action.closeExitC = s.trace.count Action.closeExitC := by
    have : acts.count Action.closeExitC = 0 := by
      rw [List.count_eq_zero]
      intro hmem
      have := ha _ hmem
      simp [Action.ofMain] at this
    rw [ht, List.count_append, this, Nat.add_zero]
  rcases hl with hl | ⟨hl1, hl2⟩
  · exact ⟨by rw [he, hl]; exact hs.exitC, by rw [hl, ho]; exact hs.quiet, by rw [ho]; exact hs.one,
      by rw [hc, hl]; exact hs.closes⟩
  · have hx := hs.exitC
    have hcl := hs.closes
    simp only [hl1] at hx hcl
    refine ⟨by rw [he, hl2]; simpa using hx, fun _ => by rw [ho]; exact hs.quiet (Or.inl hl1),
      by rw [ho]; exact hs.one, by rw [hc, hl2]; simpa using hcl⟩

theorem invL_step {w : World} {c : Sched} {s s' : State} (hI : Inv w s) (hs : InvL s)
    (h : step w c s = some s') : InvL s' := by
  rcases step_cases h with ⟨_, hm, rfl⟩ | ⟨_, hm, rfl⟩ | ⟨_, hm, rfl⟩ | ⟨b, _, hm, _, rfl⟩ |
    ⟨r, rest, _, hl, _, rfl⟩ | ⟨_, hl, rfl⟩ | ⟨_, rfl⟩ | ⟨_, hm, rfl⟩
  · refine invL_append_main hs rfl ?_ rfl (start_ofMain w)
    have hl := (hI.atStart hm).2.1
    rcases start_cases w with ⟨err, hc, h⟩ | ⟨err, hc, _, h⟩ | ⟨eb, err, hc, _, _, h⟩ |
      ⟨eb, hc, _, _, h⟩ <;> simp [h, hl]
  · exact invL_append_main hs rfl (Or.inl rfl) rfl (by simp [Action.ofMain])
  · exact invL_append_main hs rfl (Or.inl rfl) rfl (by simp [Action.ofMain, Msg.ofMain])
  · refine invL_append_main hs rfl (Or.inl rfl) rfl ?_
    cases b <;> simp [Action.ofMain, Msg.ofMain]
  · have hq := hs.quiet (Or.inr hl)
    have hx := hs.exitC
    have hcl := hs.closes
    simp only [hl] at hx hcl
    have ho := listenerTurn_outcomes w r
    have hnr : (if (listenerTurn w r).2 = true then ListenerPc.deferClose else ListenerPc.reading)
        ≠ ListenerPc.returned := by split_ifs <;> simp
    refine ⟨?_, ?_, ?_, ?_⟩
    · simpa [hnr] using hx
    · intro hor
      have h2 : (listenerTurn w r).2 = false := by
        revert hor
        dsimp only
        cases (listenerTurn w r).2 <;> simp
      show listenerOutcomes (s.trace ++ _) = []
      rw [listenerOutcomes_append, hq, listenerOutcomes_turn, ho.1 h2]
      rfl
    · show (listenerOutcomes (s.trace ++ _)).length ≤ 1
      rw [listenerOutcomes_append, hq, listenerOutcomes_turn]
      simpa using ho.2
    · show (s.trace ++ _).count Action.closeExitC = _
      rw [List.count_append, count_closeExitC_turn, if_neg hnr]
      simpa using hcl
  · have hx := hs.exitC
    have hcl := hs.closes
    simp only [hl] at hx hcl
    refine ⟨by simp, by simp, ?_, ?_⟩
    · show (listenerOutcomes (s.trace ++ _)).length ≤ 1
      rw [listenerOutcomes_append]
      simpa [listenerOutcomes, Action.ofMain, Action.outcome] using hs.one
    · show (s.trace ++ _).count Action.closeExitC = _
      rw [List.count_append]
      simpa using hcl
  · exact ⟨hs.exitC, hs.quiet, hs.one, hs.closes⟩
  · exact ⟨hs.exitC, hs.quiet, hs.one, hs.closes⟩

theorem invL_run (w : World) (sched : List Sched) : InvL (run w sched) :=
  (run_induction w (fun s => Inv w s ∧ InvL s) ⟨inv_init w, invL_init w⟩
    (fun _ _ _ hs h => ⟨inv_step hs.1 h, invL_step hs.1 hs.2 h⟩) sched).2
/-! ## Consequences of the invariants -/

/-- What the main goroutine did, read off the trace. -/
theorem inv_filter_main {w : World} {s : State} (hs : Inv w s) (hm : s.main ≠ .start) :
    s.trace.filter Action.ofMain = (Run.start w).1 ++ mainSuffix w s.main s.branch := by
  obtain ⟨tail, ht, hf, _⟩ := hs.later hm
  rw [ht, List.filter_append, start_filter, hf]

/-- While the listener is not started the trace is the main goroutine's. -/
theorem inv_trace_of_notStarted {w : World} {s : State} (hs : Inv w s) (hm : s.main ≠ .start)
    (hl : s.listener = .notStarted) :
    s.trace = (Run.start w).1 ++ mainSuffix w s.main s.branch := by
  obtain ⟨tail, ht, hf, hn⟩ := hs.later hm
  rw [ht, ← hf, hn hl]

theorem mainSuffix_no_connect_write (w : World) (pc : MainPc) (br : Option Branch) :
    ∀ a ∈ mainSuffix w pc br, a ≠ Action.Connect ∧ a.isWrite = false := by
  intro a ha
  unfold mainSuffix at ha
  cases pc <;> split_ifs at ha <;> simp at ha <;>
    rcases ha with rfl | rfl | rfl <;> simp [Action.isWrite]

theorem prefix_of_append_eq {α : Type} {a b c d : List α} {x : α} (h : a ++ b = c ++ x :: d)
    (hx : x ∉ a) : a <+: c := by
  rcases List.append_eq_append_iff.mp h with ⟨a', hc, _⟩ | ⟨c', ha, hd⟩
  · exact ⟨a', hc.symm⟩
  · cases c' with
    | nil => exact ⟨[], by simp [ha]⟩
    | cons y ys =>
      simp at hd
      exfalso
      apply hx
      rw [ha, hd.1]
      simp

/-- C7: in every run `Connect` is attempted at most once and `Write` at most
once; when `Connect` fails the run consists of the connect attempt, its
report and "Done" (no write, no read); when `Write` fails it consists of the
connect, the "Pausing" line, the one write, its report, the close and "Done"
(no read); and wherever a read occurs in a trace, `Connect` and `Write` both
succeeded and the connect and the write stand before it. -/
theorem read_only_after_connect_and_write (w : World) (sched : List Sched) :
    (run w sched).trace.count Action.Connect ≤ 1 ∧
    (run w sched).trace.countP Action.isWrite ≤ 1 ∧
    (∀ err, w.Connect = some err →
      (run w sched).trace <+: [.Connect, .Println (.unableToConnect err), .Println .done]) ∧
    (∀ eb err, w.Connect = none → w.Marshal (pauseEvent w) = .ok eb → w.Write eb = some err →
      (run w sched).trace <+: [.Connect, .Println .pausingPlayer, .Write eb,
        .Println (.unableToSend err), .Close, .Println .done]) ∧
    (∀ pre post, (run w sched).trace = pre ++ Action.Read :: post →
      w.Connect = none ∧ ∃ eb, w.Marshal (pauseEvent w) = .ok eb ∧ w.Write eb = none ∧
        [Action.Connect, .Println .pausingPlayer, .Write eb] <+: pre) := by
  have hI := inv_run w sched
  generalize run w sched = s at hI
  by_cases hm : s.main = .start
  · have ht := (hI.atStart hm).1
    simp [ht]
  obtain ⟨tail, ht, hf, hn⟩ := hI.later hm
  have htail : ∀ a ∈ tail, a ≠ Action.Connect ∧ a.isWrite = false := by
    intro a ha
    by_cases hma : a.ofMain = true
    · exact mainSuffix_no_connect_write w s.main s.branch a
        (hf ▸ List.mem_filter.mpr ⟨ha, hma⟩)
    · cases a <;> simp_all [Action.ofMain, Action.isWrite]
  have hc0 : tail.count Action.Connect = 0 :=
    List.count_eq_zero.mpr (fun h => (htail _ h).1 rfl)
  have hw0 : tail.countP Action.isWrite = 0 :=
    List.countP_eq_zero.mpr (fun a ha => by simp [(htail a ha).2])
  have hsel := hI.selecting
  have hdc := hI.deferClose
  have hbr := hI.branch
  have hlis := hI.lis
  have hcnt1 : s.trace.count Action.Connect ≤ 1 := by
    rw [ht, List.count_append, hc0]
    rcases start_cases w with ⟨_, _, h⟩ | ⟨_, _, _, h⟩ | ⟨_, _, _, _, _, h⟩ | ⟨_, _, _, _, h⟩ <;>
      simp [h]
  have hcnt2 : s.trace.countP Action.isWrite ≤ 1 := by
    rw [ht, List.countP_append, hw0]
    rcases start_cases w with ⟨_, _, h⟩ | ⟨_, _, _, h⟩ | ⟨_, _, _, _, _, h⟩ | ⟨_, _, _, _, h⟩ <;>
      simp [h, Action.isWrite, List.countP_cons]
  refine ⟨hcnt1, hcnt2, ?_⟩
  rcases start_cases w with ⟨err, hc, h⟩ | ⟨err, hc, hmr, h⟩ | ⟨eb, err, hc, hmr, hwr, h⟩ |
    ⟨eb, hc, hmr, hwr, h⟩
  · have hl : s.listener = .notStarted := by
      by_contra hl
      simpa [h] using hlis hl
    have hb : s.branch = none := by
      by_contra hb
      simpa [h] using (hbr hb).1
    have htr := inv_trace_of_notStarted hI hm hl
    have hpc : s.main = .deferDone ∨ s.main = .returned := by
      cases hpc : s.main <;> simp_all
    refine ⟨?_, ?_, ?_⟩
    · intro err' he
      rw [hc] at he
      cases he
      rcases hpc with hpc | hpc <;> rw [htr, h, hpc, hb] <;> simp [mainSuffix, hc]
    · intro eb err' he
      simp [hc] at he
    · intro pre post hp
      have hr : Action.Read ∈ s.trace := by rw [hp]; simp
      rcases hpc with hpc | hpc <;> rw [htr, h, hpc, hb] at hr <;> simp [mainSuffix, hc] at hr
  · have hl : s.listener = .notStarted := by
      by_contra hl
      simpa [h] using hlis hl
    have hb : s.branch = none := by
      by_contra hb
      simpa [h] using (hbr hb).1
    have htr := inv_trace_of_notStarted hI hm hl
    have hpc : s.main = .deferClose ∨ s.main = .deferDone ∨ s.main = .returned := by
      cases hpc : s.main <;> simp_all
    refine ⟨?_, ?_, ?_⟩
    · intro err' he
      simp [hc] at he
    · intro eb err' _ he
      simp [hmr] at he
    · intro pre post hp
      have hr : Action.Read ∈ s.trace := by rw [hp]; simp
      rcases hpc with hpc | hpc | hpc <;> rw [htr, h, hpc, hb] at hr <;>
        simp [mainSuffix, hc] at hr
  · have hl : s.listener = .notStarted := by
      by_contra hl
      simpa [h] using hlis hl
    have hb : s.branch = none := by
      by_contra hb
      simpa [h] using (hbr hb).1
    have htr := inv_trace_of_notStarted hI hm hl
    have hpc : s.main = .deferClose ∨ s.main = .deferDone ∨ s.main = .returned := by
      cases hpc : s.main <;> simp_all
    refine ⟨?_, ?_, ?_⟩
    · intro err' he
      simp [hc] at he
    · intro eb' err' _ he1 he2
      rw [hmr] at he1
      cases he1
      rw [hwr] at he2
      cases he2
      rcases hpc with hpc | hpc | hpc <;> rw [htr, h, hpc, hb] <;> simp [mainSuffix, hc]
    · intro pre post hp
      have hr : Action.Read ∈ s.trace := by rw [hp]; simp
      rcases hpc with hpc | hpc | hpc <;> rw [htr, h, hpc, hb] at hr <;>
        simp [mainSuffix, hc] at hr
  · refine ⟨?_, ?_, ?_⟩
    · intro err' he
      simp [hc] at he
    · intro eb' err' _ he1 he2
      rw [hmr] at he1
      cases he1
      simp [hwr] at he2
    · intro pre post hp
      refine ⟨hc, eb, hmr, hwr, ?_⟩
      rw [ht, h] at hp
      exact prefix_of_append_eq hp (by simp)
theorem count_filter_ofMain (t : List Action) (a : Action) (ha : a.ofMain = true) :
    (t.filter Action.ofMain).count a = t.count a :=
  List.count_filter ha

/-- C4 (amended): in every run, under every schedule, the main goroutine
reports at most one outcome and the listener reports at most one; the
connection is closed at most once, and never when `Connect` failed; and once
`Run` has returned, the main goroutine has left by exactly one way (one
outcome of its own, or the `exitC` case), and when `Connect` succeeded its
last two actions are the one `Close` and "Done". -/
theorem one_resolution_one_close (w : World) (sched : List Sched) :
    (mainOutcomes (run w sched)).length ≤ 1 ∧
    (listenerOutcomes (run w sched).trace).length ≤ 1 ∧
    (run w sched).trace.count Action.Close ≤ 1 ∧
    (w.Connect ≠ none → (run w sched).trace.count Action.Close = 0) ∧
    ((run w sched).main = .returned →
      (mainOutcomes (run w sched)).length +
          (if (run w sched).branch = some .exitC then 1 else 0) = 1 ∧
      (w.Connect = none → (run w sched).trace.count Action.Close = 1 ∧
        ∃ pre, (run w sched).trace.filter Action.ofMain =
          pre ++ [Action.Close, .Println .done] ∧ Action.Close ∉ pre)) := by
  have hI := inv_run w sched
  have hL := (invL_run w sched).one
  generalize run w sched = s at hI hL
  by_cases hm : s.main = .start
  · obtain ⟨ht, _, hb⟩ := hI.atStart hm
    simp [mainOutcomes, ht, hb, hm, listenerOutcomes]
  have hf := inv_filter_main hI hm
  have hcl : s.trace.count Action.Close =
      ((Run.start w).1 ++ mainSuffix w s.main s.branch).count Action.Close := by
    rw [← hf, count_filter_ofMain _ _ (by rfl)]
  have hmo : mainOutcomes s =
      ((Run.start w).1 ++ mainSuffix w s.main s.branch).filterMap Action.outcome ++
        (if s.branch = some .quit then [Outcome.CancelledByQuit] else []) := by
    rw [mainOutcomes, hf]
  have hsel := hI.selecting
  have hdc := hI.deferClose
  have hbr := hI.branch
  have hres := hI.resolved
  have hstartClose : Action.Close ∉ (Run.start w).1 := by
    rcases start_cases w with ⟨_, _, h⟩ | ⟨_, _, _, h⟩ | ⟨_, _, _, _, _, h⟩ | ⟨_, _, _, _, h⟩ <;>
      simp [h]
  refine ⟨?_, hL, ?_, ?_, ?_⟩
  · rw [hmo]
    rcases start_cases w with ⟨_, hc, h⟩ | ⟨_, hc, _, h⟩ | ⟨_, _, hc, _, _, h⟩ | ⟨_, hc, _, _, h⟩ <;>
      cases hpc : s.main <;> rcases hb : s.branch with _ | b <;> try cases b
    all_goals simp_all [mainSuffix, Action.outcome, Msg.outcome]
  · rw [hcl, List.count_append, List.count_eq_zero.mpr hstartClose]
    unfold mainSuffix
    cases s.main <;> split_ifs <;> simp
  · intro hc
    rw [hcl, List.count_append, List.count_eq_zero.mpr hstartClose]
    unfold mainSuffix
    cases s.main <;> split_ifs <;> simp
  · intro hret
    constructor
    · rw [hmo]
      rcases start_cases w with ⟨_, hc, h⟩ | ⟨_, hc, _, h⟩ | ⟨_, _, hc, _, _, h⟩ |
        ⟨_, hc, _, _, h⟩ <;> rcases hb : s.branch with _ | b <;> try cases b
      all_goals simp_all [mainSuffix, Action.outcome, Msg.outcome]
    · intro hc
      constructor
      · rw [hcl, List.count_append, List.count_eq_zero.mpr hstartClose]
        simp only [mainSuffix, hret, hc]
        split_ifs <;> simp
      · refine ⟨(Run.start w).1 ++
          (if s.branch = some .timeout then [Action.Println (.noResponse deadline)] else []),
          ?_, ?_⟩
        · rw [hf]
          simp [mainSuffix, hret, hc]
        · intro hmem
          rcases List.mem_append.mp hmem with h1 | h1
          · exact hstartClose h1
          · split_ifs at h1 <;> simp at h1

theorem exec_append (w : World) (a b : List Sched) (s : State) :
    exec w (a ++ b) s = exec w b (exec w a s) := by
  induction a generalizing s with
  | nil => rfl
  | cons c cs ih => exact ih _

theorem silent_step {w : World} {c : Sched} {s s' : State} (hq : c ≠ .quit) (hs : Silent s)
    (h : step w c s = some s') : Silent s' := by
  have hp := hs.pending
  have hl := hs.lis
  have hmo := hs.mainOnly
  rcases step_cases h with ⟨_, hm, rfl⟩ | ⟨_, hm, rfl⟩ | ⟨_, hm, rfl⟩ | ⟨b, _, hm, hb, rfl⟩ |
    ⟨r, rest, _, hl', hp', rfl⟩ | ⟨_, hl', rfl⟩ | ⟨hc, rfl⟩ | ⟨_, hm, rfl⟩
  · refine ⟨hs.pending, hs.quit, hs.exitC, ?_, ?_, hs.branch⟩
    · rcases start_cases w with ⟨_, _, h⟩ | ⟨_, _, _, h⟩ | ⟨_, _, _, _, _, h⟩ | ⟨_, _, _, _, h⟩ <;>
        simp [h]
    · show (s.trace ++ _).filter _ = _
      rw [List.filter_append, hmo, start_filter]
  · exact ⟨hs.pending, hs.quit, hs.exitC, hs.lis, by simp [hmo, Action.ofMain], hs.branch⟩
  · exact ⟨hs.pending, hs.quit, hs.exitC, hs.lis, by simp [hmo, Action.ofMain, Msg.ofMain],
      hs.branch⟩
  · have hb' : b = .timeout := by
      cases b <;> simp [State.ready, hs.exitC, hs.quit] at hb ⊢
    subst hb'
    exact ⟨hs.pending, hs.quit, hs.exitC, hs.lis, by simp [hmo, Action.ofMain, Msg.ofMain],
      Or.inr rfl⟩
  · simp [hp] at hp'
  · simp [hl'] at hl
  · exact absurd hc hq
  · exact ⟨hs.pending, hs.quit, hs.exitC, hs.lis, hs.mainOnly, hs.branch⟩

theorem silent_run (w : World) (sched : List Sched) (hr : w.reads = [])
    (hq : Sched.quit ∉ sched) : Inv w (run w sched) ∧ Silent (run w sched) :=
  exec_induction w (fun s => Inv w s ∧ Silent s) (fun c => c ≠ .quit)
    (fun _ _ _ hc hs h => ⟨inv_step hs.1 h, silent_step hc hs.2 h⟩) sched (State.init w)
    (fun c hc hcq => hq (hcq ▸ hc))
    ⟨inv_init w, by constructor <;> simp [State.init, hr]⟩

theorem silent_returned {w : World} {eb : Bytes} {s : State} (hI : Inv w s) (hS : Silent s)
    (hc : w.Connect = none) (hm : w.Marshal (pauseEvent w) = .ok eb) (hw : w.Write eb = none)
    (hret : s.main = .returned) :
    s.trace = timeoutTrace eb ∧ outcomes s = [Outcome.Timeout] := by
  have hst : Run.start w =
      ([.Connect, .Println .pausingPlayer, .Write eb], .selecting, .reading) := by
    simp [Run.start, hc, hm, hw]
  have hb : s.branch = some .timeout := by
    rcases hS.branch with hb | hb
    · exact absurd hb (hI.resolved (by rw [hst]) (by simp [hret]) (by simp [hret]))
    · exact hb
  have ht : s.trace = timeoutTrace eb := by
    rw [← hS.mainOnly, inv_filter_main hI (by simp [hret]), hst, hret, hb]
    simp [mainSuffix, hc, timeoutTrace]
  refine ⟨ht, ?_⟩
  simp [outcomes, mainOutcomes, listenerOutcomes, ht, hb, timeoutTrace, Action.ofMain,
    Msg.ofMain, Action.outcome, Msg.outcome]

/-- C6: when `Connect` and `Write` succeed, no read ever returns and the quit
signal is never given, the `select` can only be left by the timeout case;
a run that has returned printed exactly the timeout report; letting the timer
fire and the main goroutine move always brings the run to that end; the
deadline is 30 * 10^9 nanoseconds and the report reads "no response from
player after 30s". -/
theorem timeout_after_deadline (w : World) (eb : Bytes) (sched : List Sched)
    (hc : w.Connect = none) (hm : w.Marshal (pauseEvent w) = .ok eb) (hw : w.Write eb = none)
    (hr : w.reads = []) (hq : Sched.quit ∉ sched) :
    ((run w sched).branch = none ∨ (run w sched).branch = some .timeout) ∧
    ((run w sched).main = .returned →
      (run w sched).trace = timeoutTrace eb ∧ outcomes (run w sched) = [Outcome.Timeout]) ∧
    ((run w (sched ++ [.main, .timer, .select .timeout, .main, .main])).main = .returned ∧
      (run w (sched ++ [.main, .timer, .select .timeout, .main, .main])).trace =
        timeoutTrace eb ∧
      outcomes (run w (sched ++ [.main, .timer, .select .timeout, .main, .main])) =
        [Outcome.Timeout]) ∧
    deadline = 30 * 10 ^ 9 ∧
    (Msg.noResponse deadline).render = "no response from player after 30s" := by
  obtain ⟨hI, hS⟩ := silent_run w sched hr hq
  have hq2 : Sched.quit ∉ sched ++ [.main, .timer, .select .timeout, .main, .main] := by
    simp [hq]
  obtain ⟨hI2, hS2⟩ := silent_run w _ hr hq2
  have hst : Run.start w =
      ([.Connect, .Println .pausingPlayer, .Write eb], .selecting, .reading) := by
    simp [Run.start, hc, hm, hw]
  have hfin : (run w (sched ++ [.main, .timer, .select .timeout, .main, .main])).main =
      .returned := by
    unfold run at hI hS ⊢
    rw [exec_append]
    generalize exec w sched (State.init w) = s at hI hS
    have hsel := hI.selecting
    cases hpc : s.main <;>
      simp [exec, step, hpc, hst, State.ready]
  refine ⟨hS.branch, fun hret => silent_returned hI hS hc hm hw hret, ⟨hfin, silent_returned hI2 hS2 hc hm hw hfin⟩,
    by decide, by decide⟩
/-- C6 (witness): connect and write succeed, no read ever returns, and the
schedule lets the listener try and the timer fire but never gives the quit
signal. -/
theorem timeout_after_deadline_witness :
    (demoWorld none none []).Connect = none ∧
    (demoWorld none none []).Marshal (pauseEvent (demoWorld none none [])) = .ok pauseFrame ∧
    (demoWorld none none []).Write pauseFrame = none ∧
    (demoWorld none none []).reads = [] ∧
    Sched.quit ∉ [Sched.main, .listener, .timer, .listener] ∧
    (run (demoWorld none none [])
      ([Sched.main, .listener, .timer, .listener] ++
        [.main, .timer, .select .timeout, .main, .main])).trace = timeoutTrace pauseFrame :=
  ⟨rfl, rfl, rfl, rfl, by decide,
    (timeout_after_deadline (demoWorld none none []) pauseFrame
      [Sched.main, .listener, .timer, .listener] rfl rfl rfl rfl (by decide)).2.2.1.2.1⟩

/-! ## The race between the listener, the quit signal and the timer -/

/-- C3 (counterexample): the read returns end of file before any event was
seen, the quit signal is never given and the timer never fires, and yet the
`select` is left by the `exitC` case: the listener's deferred `close(exitC)`
ran on its way out. -/
theorem disconnect_resolves_wait :
    (run (demoWorld none none [.error "EOF"])
      [.main, .listener, .listener, .select .exitC, .main, .main]).main = .returned ∧
    (run (demoWorld none none [.error "EOF"])
      [.main, .listener, .listener, .select .exitC, .main, .main]).branch = some .exitC ∧
    (run (demoWorld none none [.error "EOF"])
      [.main, .listener, .listener, .select .exitC, .main, .main]).quit = false ∧
    (run (demoWorld none none [.error "EOF"])
      [.main, .listener, .listener, .select .exitC, .main, .main]).timer = false ∧
    (run (demoWorld none none [.error "EOF"])
      [.main, .listener, .listener, .select .exitC, .main, .main]).trace =
      [.Connect, .Println .pausingPlayer, .Write pauseFrame, .Read, .closeExitC, .Close,
        .Println .done] := by
  decide

/-- C3 (amended): when the listener is in its loop and the next read returns
an error or end of file, the listener prints nothing and reports no outcome,
but it still closes `exitC`; if the main goroutine is in the `select`, the
`exitC` case is then ready and leaving by it prints nothing. -/
theorem read_error_closes_exitC (w : World) (sched : List Sched) (err : String)
    (rest : List ReadResult) (hl : (run w sched).listener = .reading)
    (hp : (run w sched).pending = .error err :: rest) :
    (exec w [.listener, .listener] (run w sched)).trace =
      (run w sched).trace ++ [.Read, .closeExitC] ∧
    listenerOutcomes (exec w [.listener, .listener] (run w sched)).trace = [] ∧
    (exec w [.listener, .listener] (run w sched)).exitC = true ∧
    (exec w [.listener, .listener] (run w sched)).pending = rest ∧
    ((run w sched).main = .selecting →
      ∃ s', step w (.select .exitC) (exec w [.listener, .listener] (run w sched)) = some s' ∧
        s'.branch = some .exitC ∧ s'.main = .deferClose ∧
        s'.trace = (run w sched).trace ++ [.Read, .closeExitC]) := by
  have hL := (invL_run w sched).quiet (Or.inr hl)
  generalize run w sched = s at hl hp hL
  have ht : (exec w [.listener, .listener] s).trace = s.trace ++ [.Read, .closeExitC] := by
    simp [exec, step, hl, hp, listenerTurn]
  refine ⟨ht, ?_, by simp [exec, step, hl, hp, listenerTurn],
    by simp [exec, step, hl, hp, listenerTurn], ?_⟩
  · rw [ht, listenerOutcomes_append, hL]
    rfl
  · intro hm
    simp [exec, step, hl, hp, listenerTurn, hm, State.ready]

/-- C3 (witness): the environment whose first read returns end of file, after
the main goroutine has started the listener. -/
theorem read_error_closes_exitC_witness :
    (run (demoWorld none none [.error "EOF"]) [.main]).listener = .reading ∧
    (run (demoWorld none none [.error "EOF"]) [.main]).pending = .error "EOF" :: [] ∧
    (exec (demoWorld none none [.error "EOF"]) [.listener, .listener]
      (run (demoWorld none none [.error "EOF"]) [.main])).exitC = true :=
  ⟨by decide, by decide,
    (read_error_closes_exitC (demoWorld none none [.error "EOF"]) [.main] "EOF" []
      (by decide) (by decide)).2.2.1⟩

/-- Once the main goroutine has left the `select` by the quit case, the case
taken stays the quit case whatever happens next. -/
theorem quit_branch_kept (w : World) (sched : List Sched) (s : State) (hI : Inv w s)
    (hb : s.branch = some .quit) :
    Inv w (exec w sched s) ∧ (exec w sched s).branch = some .quit := by
  refine exec_induction w (fun s => Inv w s ∧ s.branch = some .quit)
    (fun _ => True) ?_ sched s (fun _ _ => trivial) ⟨hI, hb⟩
  intro c s s' _ hs h
  obtain ⟨hI, hb⟩ := hs
  refine ⟨inv_step hI h, ?_⟩
  have hns : s.main ≠ .start := fun hm => by simpa [hb] using (hI.atStart hm).2.2
  have hnsel : s.main ≠ .selecting := (hI.branch (by simp [hb])).2
  rcases step_cases h with ⟨_, hm1, rfl⟩ | ⟨_, hm1, rfl⟩ | ⟨_, hm1, rfl⟩ | ⟨b, _, hm1, _, rfl⟩ |
    ⟨r, rest, _, _, _, rfl⟩ | ⟨_, _, rfl⟩ | ⟨_, rfl⟩ | ⟨_, hm1, rfl⟩
  · exact absurd hm1 hns
  · exact hb
  · exact hb
  · exact absurd hm1 hnsel
  · exact hb
  · exact hb
  · exact hb
  · exact hb

/-- The main goroutine's own outcome after the quit case is `CancelledByQuit`
and nothing else. -/
theorem mainOutcomes_of_quit {w : World} {s : State} (hI : Inv w s)
    (hb : s.branch = some .quit) : mainOutcomes s = [Outcome.CancelledByQuit] := by
  have hns : s.main ≠ .start := fun hm => by simpa [hb] using (hI.atStart hm).2.2
  have ho := (hI.branch (by simp [hb])).1
  have hst : ∃ eb, (Run.start w).1 = [.Connect, .Println .pausingPlayer, .Write eb] := by
    rcases start_cases w with ⟨_, _, h⟩ | ⟨_, _, _, h⟩ | ⟨_, _, _, _, _, h⟩ | ⟨eb, _, _, _, h⟩
    · simp [h] at ho
    · simp [h] at ho
    · simp [h] at ho
    · exact ⟨eb, by rw [h]⟩
  obtain ⟨eb, hst⟩ := hst
  rw [mainOutcomes, inv_filter_main hI hns, hst, hb]
  have hne : (some Branch.quit = some Branch.timeout) = False := by simp
  simp only [mainSuffix, hne, if_false, if_true]
  cases s.main <;> split_ifs <;> simp [Action.outcome, Msg.outcome]

/-- C5 (counterexample): the quit signal is given before any frame is read
and before the timer fires, the main goroutine leaves the `select` by the quit
case, and the listener, which nobody stops, then reads the acknowledgement
and prints "Playback paused" before the connection is closed. -/
theorem late_response_still_reported :
    (run (demoWorld none none [.frame pausedFrame])
      [.main, .quit, .select .quit, .listener, .main, .main]).branch = some .quit ∧
    (run (demoWorld none none [.frame pausedFrame])
      [.main, .quit, .select .quit, .listener, .main, .main]).trace =
      [.Connect, .Println .pausingPlayer, .Write pauseFrame, .Read, .Println .playbackPaused,
        .Close, .Println .done] ∧
    outcomes (run (demoWorld none none [.frame pausedFrame])
      [.main, .quit, .select .quit, .listener, .main, .main]) =
      [Outcome.CancelledByQuit, Outcome.Acknowledged] := by
  decide

/-- C5 (amended): when the main goroutine is in the `select` and the quit
signal has been given while `exitC` is not closed and the timer has not
fired, the only case by which the `select` can be left is the quit case;
leaving by it prints nothing, and whatever happens afterwards the main
goroutine's own outcome is `CancelledByQuit` and it only closes the
connection and prints "Done".  (The listener is not stopped by this.) -/
theorem quit_first_wins (w : World) (sched : List Sched)
    (hm : (run w sched).main = .selecting) (hq : (run w sched).quit = true)
    (he : (run w sched).exitC = false) (ht : (run w sched).timer = false) :
    (∀ b s', step w (.select b) (run w sched) = some s' → b = .quit) ∧
    ∃ s', step w (.select .quit) (run w sched) = some s' ∧ s'.branch = some .quit ∧
      s'.main = .deferClose ∧ s'.trace = (run w sched).trace ∧
      (exec w [.main, .main] s').trace = (run w sched).trace ++ [.Close, .Println .done] ∧
      ∀ later, mainOutcomes (exec w later s') = [Outcome.CancelledByQuit] := by
  have hI := inv_run w sched
  generalize run w sched = s at hm hq he ht hI
  constructor
  · intro b s' h
    cases b <;> simp [step, hm, State.ready, hq, he, ht] at h ⊢
  · have hstep : step w (.select .quit) s =
        some { s with main := .deferClose, branch := some .quit, trace := s.trace ++ [] } := by
      simp [step, hm, State.ready, hq]
    refine ⟨_, hstep, rfl, rfl, by simp, by simp [exec, step], ?_⟩
    intro later
    have hI' := inv_step hI hstep
    obtain ⟨hI2, hb2⟩ := quit_branch_kept w later _ hI' rfl
    exact mainOutcomes_of_quit hI2 hb2

/-- C5 (witness): the quit signal given right after the command was sent. -/
theorem quit_first_wins_witness :
    (run (demoWorld none none [.frame pausedFrame]) [.main, .quit]).main = .selecting ∧
    (run (demoWorld none none [.frame pausedFrame]) [.main, .quit]).quit = true ∧
    (run (demoWorld none none [.frame pausedFrame]) [.main, .quit]).exitC = false ∧
    (run (demoWorld none none [.frame pausedFrame]) [.main, .quit]).timer = false ∧
    (∀ b s', step (demoWorld none none [.frame pausedFrame]) (.select b)
      (run (demoWorld none none [.frame pausedFrame]) [.main, .quit]) = some s' → b = .quit) :=
  ⟨by decide, by decide, by decide, by decide,
    (quit_first_wins (demoWorld none none [.frame pausedFrame]) [.main, .quit]
      (by decide) (by decide) (by decide) (by decide)).1⟩

/-- C4 (counterexample): when `Connect` fails, `Run` returns after its report
and "Done" without a single `Close`; when the acknowledgement is read just as
the timer fires, two outcomes are reported; when the read ends with end of
file, none is. -/
theorem connect_failure_never_closes :
    (run (demoWorld (some "dial unix /tmp/player.sock: connect: connection refused") none [])
      [.main, .main]).main = .returned ∧
    (run (demoWorld (some "dial unix /tmp/player.sock: connect: connection refused") none [])
      [.main, .main]).trace =
      [.Connect,
        .Println (.unableToConnect "dial unix /tmp/player.sock: connect: connection refused"),
        .Println .done] ∧
    (run (demoWorld (some "dial unix /tmp/player.sock: connect: connection refused") none [])
      [.main, .main]).trace.count Action.Close = 0 ∧
    outcomes (run (demoWorld none none [.frame pausedFrame])
      [.main, .listener, .timer, .select .timeout, .listener, .main, .main]) =
      [Outcome.Timeout, Outcome.Acknowledged] ∧
    outcomes (run (demoWorld none none [.error "EOF"])
      [.main, .listener, .listener, .select .exitC, .main, .main]) = [] := by
  decide

/-! ## The listener -/

/-- What `listen` does with a frame on which the turn returns. -/
theorem listen_cons_return (w : World) (r : ReadResult) (rest : List ReadResult)
    (h : (listenerTurn w r).2 = true) :
    listen w (r :: rest) =
      (Action.Read :: (listenerTurn w r).1.map Action.Println ++ [Action.closeExitC], rest,
        true) := by
  rcases hT : listenerTurn w r with ⟨msgs, ret⟩
  rw [hT] at h
  simp only at h
  subst h
  simp [listen, hT]

/-- What `listen` does with a frame on which the turn goes on. -/
theorem listen_cons_continue (w : World) (r : ReadResult) (rest : List ReadResult)
    (h : (listenerTurn w r).2 = false) :
    listen w (r :: rest) =
      (Action.Read :: (listenerTurn w r).1.map Action.Println ++ (listen w rest).1,
        (listen w rest).2.1, (listen w rest).2.2) := by
  rcases hT : listenerTurn w r with ⟨msgs, ret⟩
  rw [hT] at h
  simp only at h
  subst h
  simp [listen, hT]

/-- The turn on a frame that decodes, without error, to an error event whose
payload decodes, without error, to the description `d`. -/
theorem listenerTurn_error_event (w : World) (b : Bytes) (e : Event) (d : String)
    (hdec : w.Unmarshal b Event.zero = (e, none)) (hty : e.Type_ = ErrorEvent)
    (hpay : w.UnmarshalPayload e.Payload ErrorPayload.zero = (⟨d⟩, none)) :
    listenerTurn w (.frame b) = ([.errorPausingPlayer d], true) := by
  have hne : ErrorEvent ≠ PausedEvent := by decide
  simp [listenerTurn, hdec, hty, hpay, hne]

/-- C1: for every description `d`, when the listener reads a frame that
decodes to an error event whose payload decodes to `{"error": d}`, it reads
that frame, prints "Error pausing player: d", closes `exitC` and reads
nothing further: the frames after it stay unread; the line reports the
outcome `RemoteError d`; and in the run where the main goroutine then leaves
the `select` by `exitC`, that is the one outcome of the command. -/
theorem remote_error_reported (w : World) (d : String) (b : Bytes) (rest : List ReadResult)
    (e : Event) (hdec : w.Unmarshal b Event.zero = (e, none)) (hty : e.Type_ = ErrorEvent)
    (hpay : w.UnmarshalPayload e.Payload ErrorPayload.zero = (⟨d⟩, none)) :
    listen w (.frame b :: rest) =
      ([.Read, .Println (.errorPausingPlayer d), .closeExitC], rest, true) ∧
    (Msg.errorPausingPlayer d).render = "Error pausing player: " ++ d ∧
    listenerOutcomes [.Read, .Println (.errorPausingPlayer d), .closeExitC] =
      [Outcome.RemoteError d] ∧
    (∀ eb, w.Connect = none → w.Marshal (pauseEvent w) = .ok eb → w.Write eb = none →
      w.reads = .frame b :: rest →
      (run w [.main, .listener, .listener, .select .exitC, .main, .main]).main = .returned ∧
      (run w [.main, .listener, .listener, .select .exitC, .main, .main]).trace =
        [.Connect, .Println .pausingPlayer, .Write eb, .Read,
          .Println (.errorPausingPlayer d), .closeExitC, .Close, .Println .done] ∧
      (run w [.main, .listener, .listener, .select .exitC, .main, .main]).pending = rest ∧
      outcomes (run w [.main, .listener, .listener, .select .exitC, .main, .main]) =
        [Outcome.RemoteError d]) := by
  have hT := listenerTurn_error_event w b e d hdec hty hpay
  refine ⟨?_, rfl, ?_, ?_⟩
  · rw [listen_cons_return w _ rest (by rw [hT]), hT]
    rfl
  · simp [listenerOutcomes, Action.ofMain, Msg.ofMain, Action.outcome, Msg.outcome]
  · intro eb hc hm hw hr
    have hst : Run.start w =
        ([.Connect, .Println .pausingPlayer, .Write eb], .selecting, .reading) := by
      simp [Run.start, hc, hm, hw]
    simp [run, exec, step, State.init, hst, hr, hT, State.ready, outcomes, mainOutcomes,
      listenerOutcomes, Action.ofMain, Msg.ofMain, Action.outcome, Msg.outcome]

/-- C1 (witness): the description "disk full". -/
theorem remote_error_reported_witness :
    (demoWorld none none [.frame diskFullFrame]).Unmarshal diskFullFrame Event.zero =
      (⟨ErrorEvent, demoTime, diskFullPayload⟩, none) ∧
    (⟨ErrorEvent, demoTime, diskFullPayload⟩ : Event).Type_ = ErrorEvent ∧
    (demoWorld none none [.frame diskFullFrame]).UnmarshalPayload diskFullPayload
      ErrorPayload.zero = (⟨"disk full"⟩, none) ∧
    listen (demoWorld none none [.frame diskFullFrame]) [.frame diskFullFrame] =
      ([.Read, .Println (.errorPausingPlayer "disk full"), .closeExitC], [], true) :=
  ⟨by decide, by decide, by decide,
    (remote_error_reported (demoWorld none none [.frame diskFullFrame]) "disk full"
      diskFullFrame [] ⟨ErrorEvent, demoTime, diskFullPayload⟩ (by decide) (by decide)
      (by decide)).1⟩

/-- The turn on a frame that decodes without error to an event of a type other
than paused and error: nothing is printed and the loop goes on. -/
theorem listenerTurn_other (w : World) (b : Bytes)
    (hdec : (w.Unmarshal b Event.zero).2 = none) (hn : terminalFrame w b = false) :
    listenerTurn w (.frame b) = ([], false) := by
  rcases hU : w.Unmarshal b Event.zero with ⟨e, err⟩
  rw [hU] at hdec
  simp only at hdec
  subst hdec
  simp only [terminalFrame, hU, Bool.or_eq_false_iff, decide_eq_false_iff_not] at hn
  simp [listenerTurn, hU, hn.1, hn.2]

/-- The turn on a frame that decodes without error to an event of type paused
or error: the goroutine returns after a line that reports the outcome the
frame stands for, and only that one. -/
theorem listenerTurn_terminal (w : World) (b : Bytes)
    (hdec : (w.Unmarshal b Event.zero).2 = none) (ht : terminalFrame w b = true) :
    (listenerTurn w (.frame b)).2 = true ∧
    (listenerTurn w (.frame b)).1.filterMap Msg.outcome = [terminalOutcome w b] := by
  rcases hU : w.Unmarshal b Event.zero with ⟨e, err⟩
  rw [hU] at hdec
  simp only at hdec
  subst hdec
  rcases hP : w.UnmarshalPayload e.Payload ErrorPayload.zero with ⟨p, perr⟩
  simp only [terminalFrame, hU, Bool.or_eq_true, decide_eq_true_eq] at ht
  simp only [listenerTurn, hU, hP, terminalOutcome]
  by_cases h1 : e.Type_ = PausedEvent
  · simp [h1, Msg.outcome]
  · have h2 : e.Type_ = ErrorEvent := ht.resolve_left h1
    have hne : ¬ErrorEvent = PausedEvent := by decide
    cases perr <;> simp [h2, hne, Msg.outcome]

/-- The listener steps of the two-goroutine run, taken together, are the
goroutine of `listen`: from a state where the listener is in its loop, as many
listener steps as there are pending read results, and one more, append the
actions of `listen` to the trace and leave the results `listen` leaves. -/
theorem exec_listener_eq_listen (w : World) :
    ∀ (pending : List ReadResult) (s : State) (n : Nat), s.listener = .reading →
      s.pending = pending → pending.length + 1 ≤ n →
      (exec w (List.replicate n .listener) s).trace = s.trace ++ (listen w pending).1 ∧
      (exec w (List.replicate n .listener) s).pending = (listen w pending).2.1 ∧
      (exec w (List.replicate n .listener) s).listener =
        (if (listen w pending).2.2 then .returned else .reading) := by
  have hret : ∀ (n : Nat) (s : State), s.listener = .returned →
      exec w (List.replicate n .listener) s = s := by
    intro n
    induction n with
    | zero => intro s _; rfl
    | succ n ih =>
      intro s hs
      simp only [List.replicate_succ, exec, step, hs, Option.getD_none]
      exact ih s hs
  have hblock : ∀ (n : Nat) (s : State), s.listener = .reading → s.pending = [] →
      exec w (List.replicate n .listener) s = s := by
    intro n
    induction n with
    | zero => intro s _ _; rfl
    | succ n ih =>
      intro s hs hp
      simp only [List.replicate_succ, exec, step, hs, hp, Option.getD_none]
      exact ih s hs hp
  intro pending
  induction pending with
  | nil =>
    intro s n hl hp _
    rw [hblock n s hl hp]
    simp [listen, hl, hp]
  | cons r rest ih =>
    intro s n hl hp hn
    obtain ⟨m, rfl⟩ : ∃ m, n = m + 1 := ⟨n - 1, by omega⟩
    cases hT : (listenerTurn w r).2 with
    | true =>
      obtain ⟨k, rfl⟩ : ∃ k, m = k + 1 := ⟨m - 1, by simp at hn; omega⟩
      rw [listen_cons_return w r rest hT]
      simp only [List.replicate_succ, exec, step, hl, hp, hT, Option.getD_some, if_true]
      rw [hret k _ rfl]
      simp
    | false =>
      rw [listen_cons_continue w r rest hT]
      simp only [List.replicate_succ, exec, step, hl, hp, hT, Option.getD_some]
      have h1 := ih ⟨s.main, .reading, rest, s.exitC, s.quit, s.timer, s.branch,
        s.trace ++ Action.Read :: (listenerTurn w r).1.map Action.Println⟩ m rfl rfl
        (by simp at hn; omega)
      simpa using h1

theorem listen_first_terminal (w : World) (f : Bytes) (post : List ReadResult)
    (hdf : (w.Unmarshal f Event.zero).2 = none) (hf : terminalFrame w f = true) :
    ∀ pre : List Bytes, (∀ b ∈ pre, (w.Unmarshal b Event.zero).2 = none) →
      (∀ b ∈ pre, terminalFrame w b = false) →
      listen w (pre.map .frame ++ .frame f :: post) =
        (List.replicate pre.length Action.Read ++
          (Action.Read :: (listenerTurn w (.frame f)).1.map Action.Println ++
            [Action.closeExitC]), post, true) := by
  intro pre
  induction pre with
  | nil =>
    intro _ _
    simpa using listen_cons_return w (.frame f) post (listenerTurn_terminal w f hdf hf).1
  | cons b pre ih =>
    intro hdec hpre
    have hT := listenerTurn_other w b (hdec b (List.mem_cons_self b pre))
      (hpre b (List.mem_cons_self b pre))
    have h := ih (fun x hx => hdec x (List.mem_cons_of_mem b hx))
      (fun x hx => hpre x (List.mem_cons_of_mem b hx))
    simp only [List.map_cons, List.cons_append, List.length_cons, List.replicate_succ]
    rw [listen_cons_continue w (.frame b) _ (by rw [hT]), h, hT]
    rfl

theorem listenerOutcomes_replicate_read (n : Nat) :
    listenerOutcomes (List.replicate n Action.Read) = [] := by
  induction n with
  | zero => rfl
  | succ n ih =>
    rw [List.replicate_succ]
    have : listenerOutcomes (Action.Read :: List.replicate n Action.Read) =
        listenerOutcomes (List.replicate n Action.Read) := by
      simp [listenerOutcomes, Action.ofMain, Action.outcome]
    rw [this, ih]

/-- C9: for every sequence of frames that are read and decoded without error,
the listener's result is fixed by the first frame of a terminal type: each
frame before it is read and nothing is printed for it, the turn on the
terminal frame makes exactly one report (`Acknowledged` for paused,
`RemoteError` for error), `exitC` is closed exactly once, the goroutine
returns, and the frames after the terminal one are left unread. -/
theorem first_terminal_frame_decides (w : World) (pre : List Bytes) (f : Bytes)
    (post : List ReadResult) (hdec : ∀ b ∈ pre ++ [f], (w.Unmarshal b Event.zero).2 = none)
    (hpre : ∀ b ∈ pre, terminalFrame w b = false) (hf : terminalFrame w f = true) :
    listen w (pre.map .frame ++ .frame f :: post) =
      (List.replicate pre.length Action.Read ++
        (Action.Read :: (listenerTurn w (.frame f)).1.map Action.Println ++
          [Action.closeExitC]), post, true) ∧
    listenerOutcomes (listen w (pre.map .frame ++ .frame f :: post)).1 =
      [terminalOutcome w f] ∧
    (listen w (pre.map .frame ++ .frame f :: post)).1.count Action.closeExitC = 1 ∧
    (listen w (pre.map .frame ++ .frame f :: post)).1.count Action.Read = pre.length + 1 := by
  have hdf : (w.Unmarshal f Event.zero).2 = none := hdec f (by simp)
  have h := listen_first_terminal w f post hdf hf pre
    (fun b hb => hdec b (List.mem_append_left _ hb)) hpre
  have hcnt : ∀ (a : Action) (l : List Msg), (∀ m, a ≠ Action.Println m) →
      (l.map Action.Println).count a = 0 := by
    intro a l ha
    rw [List.count_eq_zero]
    intro hmem
    rcases List.mem_map.mp hmem with ⟨m, _, hm⟩
    exact ha m hm.symm
  refine ⟨h, ?_, ?_, ?_⟩
  · rw [h]
    simp only []
    rw [listenerOutcomes_append, listenerOutcomes_replicate_read, List.nil_append,
      listenerOutcomes_append, listenerOutcomes_turn,
      (listenerTurn_terminal w f hdf hf).2]
    rfl
  · rw [h]
    simp only []
    rw [List.count_append, List.count_append, count_closeExitC_turn]
    simp [List.count_replicate]
  · rw [h]
    simp only []
    rw [List.count_append, List.cons_append, List.count_cons_self, List.count_append,
      hcnt _ _ (by simp)]
    simp [List.count_replicate]

/-- C9 (witness): an event of an unknown type, then the acknowledgement, then
an error frame that is never read. -/
theorem first_terminal_frame_decides_witness :
    (∀ b ∈ [playingFrame] ++ [pausedFrame],
      ((demoWorld none none []).Unmarshal b Event.zero).2 = none) ∧
    (∀ b ∈ [playingFrame], terminalFrame (demoWorld none none []) b = false) ∧
    terminalFrame (demoWorld none none []) pausedFrame = true ∧
    listenerOutcomes (listen (demoWorld none none [])
      ([playingFrame].map .frame ++ .frame pausedFrame :: [.frame diskFullFrame])).1 =
      [terminalOutcome (demoWorld none none []) pausedFrame] :=
  ⟨by decide, by decide, by decide,
    (first_terminal_frame_decides (demoWorld none none []) [playingFrame] pausedFrame
      [.frame diskFullFrame] (by decide) (by decide) (by decide)).2.1⟩

/-- C10 (counterexample): the payload of the error event cannot be decoded
(its member `error` comes twice, the second time as a number) and the
description the listener reports is "disk full", which the failed decode had
already stored, not the empty one. -/
theorem failed_payload_description_kept :
    ((demoWorld none none []).UnmarshalPayload twiceErrorPayload ErrorPayload.zero).2 ≠ none ∧
    listen (demoWorld none none []) [.frame twiceErrorFrame] =
      ([.Read, .Println .unableToProcessError, .Println (.errorPausingPlayer "disk full"),
        .closeExitC], [], true) ∧
    listenerOutcomes (listen (demoWorld none none []) [.frame twiceErrorFrame]).1 ≠
      [Outcome.RemoteError ""] := by
  decide

/-- C10 (amended): for every frame that leaves the event with the type error
and whose payload cannot be decoded, the listener treats the event as
terminal: after the line for a failed decode of the frame itself, if any, it
prints "Unable to process error", then "Error pausing player:" with the
description the failed decode left in the payload, closes `exitC` and reads
nothing further; the description is the empty one when the failed decode left
the payload untouched. -/
theorem undecodable_payload_is_terminal (w : World) (b : Bytes) (rest : List ReadResult)
    (e : Event) (err : Option String) (p : ErrorPayload) (perr : String)
    (hdec : w.Unmarshal b Event.zero = (e, err)) (hty : e.Type_ = ErrorEvent)
    (hpay : w.UnmarshalPayload e.Payload ErrorPayload.zero = (p, some perr)) :
    listen w (.frame b :: rest) =
      (Action.Read ::
        ((match err with
          | some x => [Msg.errorReadingEvent x]
          | none => []) ++
          [.unableToProcessError, .errorPausingPlayer p.Error]).map Action.Println ++
        [Action.closeExitC], rest, true) ∧
    listenerOutcomes (listen w (.frame b :: rest)).1 = [Outcome.RemoteError p.Error] ∧
    (p = ErrorPayload.zero →
      listenerOutcomes (listen w (.frame b :: rest)).1 = [Outcome.RemoteError ""]) := by
  have hne : ErrorEvent ≠ PausedEvent := by decide
  cases err with
  | none =>
    have hT : listenerTurn w (.frame b) =
        ([.unableToProcessError, .errorPausingPlayer p.Error], true) := by
      simp [listenerTurn, hdec, hty, hpay, hne]
    have hl : listen w (.frame b :: rest) = ([.Read, .Println .unableToProcessError,
        .Println (.errorPausingPlayer p.Error), .closeExitC], rest, true) := by
      rw [listen_cons_return w (.frame b) rest (by rw [hT]), hT]
      rfl
    refine ⟨by rw [hl]; rfl, by rw [hl]; rfl, fun hp => by rw [hl, hp]; rfl⟩
  | some x =>
    have hT : listenerTurn w (.frame b) =
        ([.errorReadingEvent x, .unableToProcessError, .errorPausingPlayer p.Error], true) := by
      simp [listenerTurn, hdec, hty, hpay, hne]
    have hl : listen w (.frame b :: rest) = ([.Read, .Println (.errorReadingEvent x),
        .Println .unableToProcessError, .Println (.errorPausingPlayer p.Error), .closeExitC],
        rest, true) := by
      rw [listen_cons_return w (.frame b) rest (by rw [hT]), hT]
      rfl
    refine ⟨by rw [hl]; rfl, by rw [hl]; rfl, fun hp => by rw [hl, hp]; rfl⟩

/-- C10 (witness): an error event whose payload is a JSON string. -/
theorem undecodable_payload_is_terminal_witness :
    (demoWorld none none []).Unmarshal oddErrorFrame Event.zero =
      (⟨ErrorEvent, demoTime, "\"oops\""⟩, none) ∧
    (⟨ErrorEvent, demoTime, "\"oops\""⟩ : Event).Type_ = ErrorEvent ∧
    (demoWorld none none []).UnmarshalPayload "\"oops\"" ErrorPayload.zero =
      (⟨""⟩, some "json: cannot unmarshal string into Go value of type event.ErrorPayload") ∧
    listenerOutcomes (listen (demoWorld none none []) (.frame oddErrorFrame :: [])).1 =
      [Outcome.RemoteError ""] :=
  ⟨by decide, by decide, by decide,
    (undecodable_payload_is_terminal (demoWorld none none []) oddErrorFrame []
      ⟨ErrorEvent, demoTime, "\"oops\""⟩ none ⟨""⟩
      "json: cannot unmarshal string into Go value of type event.ErrorPayload"
      (by decide) (by decide) (by decide)).2.1⟩

/-- A frame whose decode fails and leaves the event with a type that is
neither paused nor error (as when nothing was stored): the failure is printed
and the listener reads the next frame. -/
theorem decode_failure_tolerated (w : World) (b : Bytes) (rest : List ReadResult) (e : Event)
    (x : String) (hdec : w.Unmarshal b Event.zero = (e, some x))
    (h1 : e.Type_ ≠ PausedEvent) (h2 : e.Type_ ≠ ErrorEvent) :
    listenerTurn w (.frame b) = ([.errorReadingEvent x], false) ∧
    listen w (.frame b :: rest) =
      (.Read :: .Println (.errorReadingEvent x) :: (listen w rest).1, (listen w rest).2.1,
        (listen w rest).2.2) := by
  have hT : listenerTurn w (.frame b) = ([.errorReadingEvent x], false) := by
    simp [listenerTurn, hdec, h1, h2]
  refine ⟨hT, ?_⟩
  rw [listen_cons_continue w (.frame b) rest (by rw [hT]), hT]
  rfl

/-- C2 (the code at the failing input): a frame whose decode fails after the
type tag was stored ends the loop.  With the tag `error` the listener prints
the decode failure and then reports a remote error, and the acknowledgement
that follows is never read; with the tag `paused` it prints the decode failure
and then "Playback paused". -/
theorem half_decoded_frame_ends_loop :
    ((demoWorld none none []).Unmarshal halfErrorFrame Event.zero).2 = some timeError ∧
    listen (demoWorld none none []) [.frame halfErrorFrame, .frame pausedFrame] =
      ([.Read, .Println (.errorReadingEvent timeError), .Println .unableToProcessError,
        .Println (.errorPausingPlayer ""), .closeExitC], [.frame pausedFrame], true) ∧
    listenerOutcomes
      (listen (demoWorld none none []) [.frame halfErrorFrame, .frame pausedFrame]).1 =
      [Outcome.RemoteError ""] ∧
    ((demoWorld none none []).Unmarshal halfPausedFrame Event.zero).2 = some timeError ∧
    listen (demoWorld none none []) [.frame halfPausedFrame, .frame diskFullFrame] =
      ([.Read, .Println (.errorReadingEvent timeError), .Println .playbackPaused,
        .closeExitC], [.frame diskFullFrame], true) := by
  decide
/-! ## Round trip of the event codec -/

theorem expect_append (pre rest : List Char) : expect pre (pre ++ rest) = some rest := by
  induction pre with
  | nil => rfl
  | cons p ps ih => simp [expect, ih]

theorem expect_one (c : Char) (rest : List Char) : expect [c] (c :: rest) = some rest := by
  simp [expect]

theorem readString_escape (s rest : List Char) :
    readString (escape s ++ '"' :: rest) = some (s, rest) := by
  unfold readString
  induction s with
  | nil => simp [escape, readStringFrom]
  | cons c cs ih =>
    by_cases hc : c = '"' ∨ c = '\\'
    · have h1 : ¬ ('\\' : Char) = '"' := by decide
      simp [escape, hc, readStringFrom, h1, ih]
    · have h1 : ¬ c = '"' := fun h => hc (Or.inl h)
      have h2 : ¬ c = '\\' := fun h => hc (Or.inr h)
      simp [escape, readStringFrom, h1, h2, ih]

theorem digitChar_toNat (d : Nat) (hd : d < 10) : (digitChar d).toNat = 48 + d := by
  interval_cases d <;> rfl

theorem readFixed_writeFixed (k : Nat) : ∀ (acc n : Nat) (rest : List Char),
    readFixed k acc (writeFixed k n ++ rest) = some (acc * 10 ^ k + n % 10 ^ k, rest) := by
  induction k with
  | zero =>
    intro acc n rest
    simp [readFixed, writeFixed, Nat.mod_one]
  | succ k ih =>
    intro acc n rest
    have hd : n / 10 ^ k % 10 < 10 := Nat.mod_lt _ (by norm_num)
    have hc := digitChar_toNat _ hd
    simp only [writeFixed, List.cons_append, readFixed, hc]
    rw [if_pos (by omega)]
    simp only [List.append_eq]
    rw [ih]
    have : 48 + n / 10 ^ k % 10 - 48 = n / 10 ^ k % 10 := by omega
    rw [this, Nat.mod_pow_succ]
    congr 1
    rw [pow_succ]
    ring_nf

theorem readFixed_of_lt (k n : Nat) (rest : List Char) (hn : n < 10 ^ k) :
    readFixed k 0 (writeFixed k n ++ rest) = some (n, rest) := by
  rw [readFixed_writeFixed, Nat.mod_eq_of_lt hn]
  simp

theorem readTimestamp_writeTimestamp (t : Timestamp) (ht : t.valid) (rest : List Char) :
    readTimestamp (writeTimestamp t ++ rest) = some (t, rest) := by
  obtain ⟨h1, h2, h3, h4, h5, h6, h7, h8, h9⟩ := ht
  have e1 := fun r => readFixed_of_lt 4 t.year r (by omega)
  have e2 := fun r => readFixed_of_lt 2 t.month r (by omega)
  have e3 := fun r => readFixed_of_lt 2 t.day r (by omega)
  have e4 := fun r => readFixed_of_lt 2 t.hour r (by omega)
  have e5 := fun r => readFixed_of_lt 2 t.minute r (by omega)
  have e6 := fun r => readFixed_of_lt 2 t.second r (by omega)
  have e7 := fun r => readFixed_of_lt 9 t.nano r (by omega)
  have hv : Timestamp.valid ⟨t.year, t.month, t.day, t.hour, t.minute, t.second, t.nano⟩ :=
    ⟨h1, h2, h3, h4, h5, h6, h7, h8, h9⟩
  simp only [readTimestamp, writeTimestamp, List.append_assoc, List.cons_append,
    List.nil_append, e1, e2, e3, e4, e5, e6, e7, Option.bind_some, Option.some_bind, expect,
    if_true, hv]

theorem readPayload_writePayload (p : List Char) : readPayload (writePayload p) = some p := by
  by_cases hp : p = []
  · simp [writePayload, readPayload, hp]
  · have hne : ¬ openPayload ++ (p ++ ['}']) = ['}'] := by
      intro h
      have := congrArg List.length h
      simp [openPayload] at this
    simp only [writePayload, hp, if_false, readPayload, hne, List.append_assoc, expect_append,
      Option.some_bind, Option.bind_some]
    simp [hp]

/-- C8: for every event with a valid timestamp, decoding what `encode` gives
yields the event again. -/
theorem decode_encode (e : Event) (ht : e.Created.valid) : decode (encode e) = .ok e := by
  simp only [decode, encode, List.append_assoc, expect_append, Option.some_bind,
    readString_escape, List.cons_append, readTimestamp_writeTimestamp _ ht, expect_one,
    readPayload_writePayload]

/-- C8 (witness): the pause event the command sends, with its empty
payload. -/
theorem decode_encode_witness :
    (pauseEvent (demoWorld none none [])).Created.valid ∧
    decode (encode (pauseEvent (demoWorld none none []))) =
      .ok (pauseEvent (demoWorld none none [])) :=
  ⟨by decide, decode_encode (pauseEvent (demoWorld none none [])) (by decide)⟩

/-- An empty message does not decode. -/
theorem decode_empty : decode "" = .error "malformed event" := rfl

end Player
